import Mathlib

/-!
To-Do-List: view filter, list accessor and task accessor of `src/src/App.jsx`

A shallow embedding of the client-side logic of the task workspace:

* JavaScript string primitives used by the code (`trim`, relational comparison
  by UTF-16 code units);
* the document store (`lists` collection and `lists/{listId}/todos`
  sub-collections) with the four store calls the client issues
  (`addDoc`, `updateDoc`, `deleteDoc`, `getDocs`);
* the React state of `App` and its handlers, run to completion one at a time;
* the submit handler of the task-creation modal;
* the date part of `toISOString()` for the current instant.

Line numbers in the comments refer to `src/src/App.jsx`.
-/

namespace TodoApp

/-! ## JavaScript strings -/

/-- UTF-16 encoding of one code point: JavaScript strings are sequences of
16-bit code units and are compared unit by unit. -/
def utf16 (c : Char) : List Nat :=
  if c.toNat < 0x10000 then [c.toNat]
  else [0xD800 + (c.toNat - 0x10000) / 0x400, 0xDC00 + (c.toNat - 0x10000) % 0x400]

/-- Code units of a string. -/
def codeUnits : List Char → List Nat
  | [] => []
  | c :: cs => utf16 c ++ codeUnits cs

/-- Lexicographic "less than" on code-unit sequences (a proper prefix is smaller). -/
def ltUnits : List Nat → List Nat → Bool
  | _, [] => false
  | [], _ :: _ => true
  | a :: as, b :: bs => if a < b then true else if b < a then false else ltUnits as bs

/-- JavaScript `a < b` on two strings. -/
def jsLt (a b : String) : Bool := ltUnits (codeUnits a.data) (codeUnits b.data)

/-- JavaScript `a >= b` on two strings, which is `!(a < b)`. -/
def jsGe (a b : String) : Bool := !jsLt a b

/-- JavaScript `a > b` on two strings, which is `b < a`. -/
def jsGt (a b : String) : Bool := jsLt b a

/-- White space and line terminators removed by `String.prototype.trim`. -/
def isJsSpace (c : Char) : Bool :=
  let n := c.toNat
  n == 0x09 || n == 0x0A || n == 0x0B || n == 0x0C || n == 0x0D || n == 0x20 ||
  n == 0xA0 || n == 0x1680 || (0x2000 ≤ n && n ≤ 0x200A) || n == 0x2028 ||
  n == 0x2029 || n == 0x202F || n == 0x205F || n == 0x3000 || n == 0xFEFF

/-- Drop white space from both ends of a character list. -/
def trimChars (cs : List Char) : List Char :=
  ((cs.dropWhile isJsSpace).reverse.dropWhile isJsSpace).reverse

/-- JavaScript `s.trim()`. -/
def jsTrim (s : String) : String := String.mk (trimChars s.data)

/-! ## Documents -/

/-- A document of the `lists` collection as `fetchLists` reads it
(`{ id: doc.id, ...doc.data() }`, lines 318 and 343-347). -/
structure ListDoc where
  id : String
  uid : String
  name : String
  createdAt : Nat
  deriving DecidableEq, Repr

/-- The fields of a stored task document. `addTodo` writes the first seven
(lines 443-452); a move writes the whole in-memory task object, which also
carries `id` and `listId` (lines 523-527 and 579-583). -/
structure TodoData where
  task : String
  status : String
  createdAt : Nat
  list : String
  description : String
  dueDate : String
  coreViewTag : String
  id : Option String
  listId : Option String
  deriving DecidableEq, Repr

/-- A document at path `lists/{parent}/todos/{docId}`. -/
structure TodoDoc where
  parent : String
  docId : String
  data : TodoData
  deriving DecidableEq, Repr

/-- An element of the in-memory `todos` array (lines 413-418). -/
structure Todo where
  id : String
  task : String
  status : String
  createdAt : Nat
  list : String
  description : String
  dueDate : String
  coreViewTag : String
  listId : String
  deriving DecidableEq, Repr

/-- The remote document store. A sub-collection lives independently of its
parent list document. -/
structure Store where
  lists : List ListDoc
  todos : List TodoDoc
  deriving DecidableEq, Repr

/-! ## View filter (lines 177, 241-276) -/

/-- The built-in view names (line 177). -/
def CORE_VIEWS : List String := ["Today", "Upcoming", "Calendar", "Sticky Wall"]

/-- The `filteredTodos` memo (lines 241-268) as a function of the two date strings: `today`
is the value of `new Date().toISOString().split('T')[0]` (see `todayString`) and `tomorrowStr`
the one computed at lines 257-259 (see `tomorrowString`); `filteredTodosAt` evaluates the memo
at an instant. -/
def filteredTodos (user : Option String) (todos : List Todo) (selectedList : String)
    (today tomorrowStr : String) : List Todo :=
  match user with
  | none => []
  | some _ =>
    if !CORE_VIEWS.contains selectedList then
      todos.filter (fun t => t.list == selectedList)
    else if selectedList == "Today" then
      todos.filter (fun t => t.dueDate == today)
    else if selectedList == "Upcoming" then
      todos.filter (fun t => jsGe t.dueDate tomorrowStr)
    else if selectedList == "Calendar" || selectedList == "Sticky Wall" then
      todos
    else
      todos

/-- The first component of the memo at lines 272-276. -/
def activeTodos (filtered : List Todo) : List Todo :=
  filtered.filter (fun t => t.status != "Done")

/-- The second component of the memo at lines 272-276. -/
def completedTodos (filtered : List Todo) : List Todo :=
  filtered.filter (fun t => t.status == "Done")

/-! ## Document store calls -/

/-- The documents read by `getDocs(query(collection(db, "lists"), where("uid", "==", uid)))`. -/
def getListDocs (s : Store) (uid : String) : List ListDoc :=
  s.lists.filter (fun l => l.uid == uid)

/-- The documents read by `getDocs(query(collection(db, "lists", listId, "todos")))`. -/
def getTodoDocs (s : Store) (listId : String) : List TodoDoc :=
  s.todos.filter (fun d => d.parent == listId)

/-- The call `addDoc(collection(db, "lists"), data)`; `newId` is the identifier the
store generates for the new document. -/
def addListDoc (s : Store) (newId : String) (uid name : String) (createdAt : Nat) : Store :=
  { s with lists := s.lists ++ [{ id := newId, uid := uid, name := name, createdAt := createdAt }] }

/-- The call `updateDoc(doc(db, "lists", id), { name })`. It fails (`none`) when the
document does not exist. -/
def updateListDoc (s : Store) (id : String) (name : String) : Option Store :=
  if s.lists.any (fun l => l.id == id) then
    some { s with lists := s.lists.map (fun l => if l.id == id then { l with name := name } else l) }
  else none

/-- The call `deleteDoc(doc(db, "lists", id))`. Deleting a missing document succeeds. -/
def deleteListDoc (s : Store) (id : String) : Store :=
  { s with lists := s.lists.filter (fun l => l.id != id) }

/-- The call `addDoc(collection(db, "lists", listId, "todos"), data)`; `newId` is the
identifier the store generates for the new document. -/
def addTodoDoc (s : Store) (listId newId : String) (data : TodoData) : Store :=
  { s with todos := s.todos ++ [{ parent := listId, docId := newId, data := data }] }

/-- The call `updateDoc(doc(db, "lists", listId, "todos", docId), fields)`, the field
update given as a function on the stored data. It fails (`none`) when the document
does not exist. -/
def updateTodoDoc (s : Store) (listId docId : String) (f : TodoData → TodoData) : Option Store :=
  if s.todos.any (fun d => d.parent == listId && d.docId == docId) then
    some { s with todos := s.todos.map (fun d =>
      if d.parent == listId && d.docId == docId then { d with data := f d.data } else d) }
  else none

/-- The call `deleteDoc(doc(db, "lists", listId, "todos", docId))`. Deleting a missing
document succeeds and changes nothing. -/
def deleteTodoDoc (s : Store) (listId docId : String) : Store :=
  { s with todos := s.todos.filter (fun d => !(d.parent == listId && d.docId == docId)) }

/-! ## Application state -/

/-- The React state of `App` (lines 159-189). -/
structure AppState where
  user : Option String
  todos : List Todo
  editId : Option String
  editTask : String
  lists : List ListDoc
  newList : String
  editListId : Option String
  editListName : String
  selectedView : String
  selectedList : String
  selectedTaskId : Option String
  detailTaskName : String
  detailDescription : String
  detailDueDate : String
  detailList : String
  deriving DecidableEq, Repr

/-- The store together with the client state. -/
structure World where
  store : Store
  app : AppState
  deriving DecidableEq, Repr

/-- JavaScript truthiness of an identifier that is `null`/`undefined` or a string. -/
def truthy : Option String → Bool
  | none => false
  | some s => s != ""

/-- The helper `getListIdByName` (lines 195-197): `lists.find(l => l.name === listName)?.id`. -/
def getListIdByName (lists : List ListDoc) (listName : String) : Option String :=
  (lists.find? (fun l => l.name == listName)).map (fun l => l.id)

/-- The handler `handleTaskViewChange` (lines 298-303). -/
def handleTaskViewChange (view : String) (a : AppState) : AppState :=
  { a with selectedView := view, selectedList := view, selectedTaskId := none }

/-- The handler `handleListChange` (lines 305-309). -/
def handleListChange (listName : String) (a : AppState) : AppState :=
  { a with selectedList := listName, selectedView := "Today", selectedTaskId := none }

/-- The visible task subset: `filteredTodos` on the current state. -/
def visibleTodos (a : AppState) (today tomorrowStr : String) : List Todo :=
  filteredTodos a.user a.todos a.selectedList today tomorrowStr

/-! ## List accessor (lines 313-396) -/

/-- The order produced by the comparator `(a, b) => (a.name > b.name ? 1 : -1)` (line 319):
`a` may stand before `b` unless `a.name > b.name`. -/
def listBefore (a b : ListDoc) : Prop := jsGt a.name b.name = false

instance : DecidableRel listBefore := fun a b => decEq (jsGt a.name b.name) false

/-- The array `listsData` computed at lines 315-319. The comparator never returns 0, so the
relative order of lists with equal names is left to the engine; a stable sort is taken here. -/
def fetchedLists (s : Store) (uid : String) : List ListDoc :=
  (getListDocs s uid).insertionSort listBefore

/-- The function `fetchLists` (lines 313-337). `selectedList` is the value captured by
the render in which the calling handler was created; the state updates are applied to `a`. -/
def fetchLists (s : Store) (uid : String) (selectedList : String) (a : AppState) : AppState :=
  let listsData := fetchedLists s uid
  let a1 := { a with lists := listsData }
  match listsData with
  | [] => if !CORE_VIEWS.contains selectedList then { a1 with selectedList := "Today" } else a1
  | first :: _ =>
    if CORE_VIEWS.contains selectedList then a1
    else if !listsData.any (fun l => l.name == selectedList) then
      { a1 with selectedList := first.name }
    else a1

/-- The handler `addList` (lines 339-350); `newId` is the generated document identifier
and `now` the value of `new Date()`. -/
def addList (newId : String) (now : Nat) (w : World) : World :=
  match w.app.user with
  | none => w
  | some uid =>
    let trimmedList := jsTrim w.app.newList
    if trimmedList == "" || w.app.lists.any (fun l => l.name == trimmedList) then w
    else
      let s1 := addListDoc w.store newId uid trimmedList now
      { store := s1, app := fetchLists s1 uid w.app.selectedList { w.app with newList := "" } }

/-- The handler `startEditList` (lines 352-355). -/
def startEditList (list : ListDoc) (a : AppState) : AppState :=
  { a with editListId := some list.id, editListName := list.name }

/-- The handler `saveEditList` (lines 357-377). A failing `updateDoc` rejects the handler
before any state update, leaving the world as it was. -/
def saveEditList (w : World) : World :=
  match w.app.user with
  | none => w
  | some uid =>
    let trimmedEditName := jsTrim w.app.editListName
    if trimmedEditName == "" ||
        w.app.lists.any (fun l => l.name == trimmedEditName && some l.id != w.app.editListId) then w
    else
      match w.app.editListId with
      | none => w
      | some editListId =>
        match updateListDoc w.store editListId trimmedEditName with
        | none => w
        | some s1 =>
          let oldName := (w.app.lists.find? (fun l => l.id == editListId)).map (fun l => l.name)
          let a1 := if some w.app.selectedList == oldName then
            { w.app with selectedList := trimmedEditName } else w.app
          let a2 := { a1 with editListId := none, editListName := "" }
          { store := s1, app := fetchLists s1 uid w.app.selectedList a2 }

/-! ## Task accessor (lines 401-595) -/

/-- The object pushed at lines 413-418: `{ id: todoDoc.id, ...todoDoc.data(), list, listId }`.
Fields of the stored data that come later in the literal replace earlier ones, so a stored
`id` field replaces the document identifier, while `list` and `listId` are replaced by those
of the enclosing list. -/
def toTodo (listId listName : String) (d : TodoDoc) : Todo :=
  { id := d.data.id.getD d.docId
    task := d.data.task
    status := d.data.status
    createdAt := d.data.createdAt
    list := listName
    description := d.data.description
    dueDate := d.data.dueDate
    coreViewTag := d.data.coreViewTag
    listId := listId }

/-- The order produced by the comparator `(a, b) => b.createdAt.toDate() - a.createdAt.toDate()`
(line 422): newest first. -/
def todoBefore (a b : Todo) : Prop := b.createdAt ≤ a.createdAt

instance : DecidableRel todoBefore := fun a b => Nat.decLe b.createdAt a.createdAt

/-- The array `allTodos` before sorting (lines 403-420). -/
def collectTodos (s : Store) (lists : List ListDoc) : List Todo :=
  match lists with
  | [] => []
  | l :: rest => (getTodoDocs s l.id).map (toTodo l.id l.name) ++ collectTodos s rest

/-- The array passed to `setTodos` by `fetchAllTodos` (lines 401-424). -/
def fetchAllTodos (s : Store) (uid : String) : List Todo :=
  (collectTodos s (getListDocs s uid)).insertionSort todoBefore

/-- The stored fields written by `addTodo` (lines 443-452). -/
def newTodoData (task description dueDate listName coreViewTag : String) (now : Nat) : TodoData :=
  { task := task, status := "Pending", createdAt := now, list := listName,
    description := description, dueDate := dueDate, coreViewTag := coreViewTag,
    id := none, listId := none }

/-- The handler `addTodo` (lines 432-456) on the data submitted by the modal. -/
def addTodo (task description dueDate listName coreViewTag : String) (newId : String) (now : Nat)
    (w : World) : World :=
  let listId := getListIdByName w.app.lists listName
  if !truthy listId then w
  else
    match listId with
    | none => w
    | some lid =>
      let data := newTodoData task description dueDate listName coreViewTag now
      let s1 := addTodoDoc w.store lid newId data
      match w.app.user with
      | none => { w with store := s1 }
      | some uid => { store := s1, app := { w.app with todos := fetchAllTodos s1 uid } }

/-- The status written by `changeStatus` (lines 465-470). -/
def nextStatus (status : String) : String :=
  if status == "In Progress" then "Done"
  else if status == "Done" then "Pending"
  else "In Progress"

/-- The handler `changeStatus` (lines 458-475). A failing `updateDoc` rejects the handler
before the re-fetch. -/
def changeStatus (todo : Todo) (w : World) : World :=
  let listId := getListIdByName w.app.lists todo.list
  if !truthy listId then w
  else
    match listId with
    | none => w
    | some lid =>
      match updateTodoDoc w.store lid todo.id (fun d => { d with status := nextStatus todo.status }) with
      | none => w
      | some s1 =>
        match w.app.user with
        | none => { w with store := s1 }
        | some uid => { store := s1, app := { w.app with todos := fetchAllTodos s1 uid } }

/-- The handler `selectTaskForDetails` (lines 479-496). -/
def selectTaskForDetails (taskId : String) (a : AppState) : AppState :=
  if a.selectedTaskId == some taskId then
    { a with selectedTaskId := none, detailTaskName := "" }
  else
    match a.todos.find? (fun t => t.id == taskId) with
    | none => a
    | some task =>
      { a with selectedTaskId := some task.id, detailTaskName := task.task,
               detailDescription := task.description, detailDueDate := task.dueDate,
               detailList := task.list, editId := none }

/-- The stored fields written by the move branch of `saveTaskDetails` (lines 523-527):
`{ ...currentTask, ...updatedFields, list: detailList }`. -/
def movedTodoData (cur : Todo) (task description dueDate list : String) : TodoData :=
  { task := task, status := cur.status, createdAt := cur.createdAt, list := list,
    description := description, dueDate := dueDate, coreViewTag := cur.coreViewTag,
    id := some cur.id, listId := some cur.listId }

/-- The handler `saveTaskDetails` (lines 498-536). A missing `currentTask` or a failing
`updateDoc` rejects the handler before any state update. -/
def saveTaskDetails (newId : String) (w : World) : World :=
  let a := w.app
  if !truthy a.selectedTaskId || jsTrim a.detailTaskName == "" then w
  else
    match a.selectedTaskId, a.todos.find? (fun t => some t.id == a.selectedTaskId) with
    | none, _ => w
    | some _, none => w
    | some selectedTaskId, some currentTask =>
      let oldListId := getListIdByName a.lists currentTask.list
      let newListId := getListIdByName a.lists a.detailList
      if !truthy oldListId || !truthy newListId then w
      else
        match oldListId, newListId with
        | some oldId, some newLid =>
          let stored : Option Store :=
            if oldId == newLid then
              updateTodoDoc w.store oldId selectedTaskId (fun d =>
                { d with task := jsTrim a.detailTaskName, description := a.detailDescription,
                         dueDate := a.detailDueDate, list := a.detailList })
            else
              some (deleteTodoDoc
                (addTodoDoc w.store newLid newId
                  (movedTodoData currentTask (jsTrim a.detailTaskName) a.detailDescription
                    a.detailDueDate a.detailList))
                oldId selectedTaskId)
          match stored with
          | none => w
          | some s1 =>
            let a1 := { a with selectedTaskId := none }
            match a.user with
            | none => { store := s1, app := a1 }
            | some uid => { store := s1, app := { a1 with todos := fetchAllTodos s1 uid } }
        | _, _ => w

/-- The handler `deleteTask` (lines 538-550); `confirmed` is the answer of
`window.confirm`. A missing `currentTask` rejects the handler before the store call. -/
def deleteTask (confirmed : Bool) (w : World) : World :=
  let a := w.app
  if !truthy a.selectedTaskId || !confirmed then w
  else
    match a.selectedTaskId, a.todos.find? (fun t => some t.id == a.selectedTaskId) with
    | none, _ => w
    | some _, none => w
    | some selectedTaskId, some currentTask =>
      let currentListId := getListIdByName a.lists currentTask.list
      if !truthy currentListId then w
      else
        match currentListId with
        | none => w
        | some lid =>
          let s1 := deleteTodoDoc w.store lid selectedTaskId
          let a1 := { a with selectedTaskId := none }
          match a.user with
          | none => { store := s1, app := a1 }
          | some uid => { store := s1, app := { a1 with todos := fetchAllTodos s1 uid } }

/-- The handler `startEdit` (lines 553-557). -/
def startEdit (todo : Todo) (a : AppState) : AppState :=
  { a with editId := some todo.id, editTask := todo.task, selectedTaskId := none }

/-- The stored fields written by the move branch of `saveEdit` (lines 579-583):
`{ ...todo, task: taskNameUpdate, list: targetListName }`. -/
def inlineMovedTodoData (todo : Todo) (task list : String) : TodoData :=
  { task := task, status := todo.status, createdAt := todo.createdAt, list := list,
    description := todo.description, dueDate := todo.dueDate, coreViewTag := todo.coreViewTag,
    id := some todo.id, listId := some todo.listId }

/-- The handler `saveEdit` (lines 560-595); an empty `newListValue` stands for a falsy
argument. A failing `updateDoc` rejects the handler before any state update. -/
def saveEdit (todo : Todo) (newListValue : String) (newId : String) (w : World) : World :=
  let a := w.app
  let currentListId := getListIdByName a.lists todo.list
  let targetListName := if newListValue != "" then newListValue else todo.list
  let targetListId := getListIdByName a.lists targetListName
  if !truthy currentListId || !truthy targetListId then w
  else
    match currentListId, targetListId with
    | some curId, some tgtId =>
      let taskNameUpdate :=
        if truthy a.editId then
          (if jsTrim a.editTask != "" then jsTrim a.editTask else todo.task)
        else todo.task
      let stored : Option Store :=
        if curId == tgtId then
          (if truthy a.editId then
            updateTodoDoc w.store curId todo.id (fun d => { d with task := taskNameUpdate })
          else some w.store)
        else
          some (deleteTodoDoc
            (addTodoDoc w.store tgtId newId (inlineMovedTodoData todo taskNameUpdate targetListName))
            curId todo.id)
      match stored with
      | none => w
      | some s1 =>
        let a1 := { a with editId := none, editTask := "" }
        match a.user with
        | none => { store := s1, app := a1 }
        | some uid => { store := s1, app := { a1 with todos := fetchAllTodos s1 uid } }
    | _, _ => w

/-! ## Sessions -/

/-- The initial React state (lines 159-189). -/
def AppState.initial : AppState :=
  { user := none
    todos := []
    editId := none
    editTask := ""
    lists := []
    newList := ""
    editListId := none
    editListName := ""
    selectedView := "Today"
    selectedList := "Today"
    selectedTaskId := none
    detailTaskName := ""
    detailDescription := ""
    detailDueDate := ""
    detailList := "" }

/-- The session observer reporting a signed-in user followed by the effect at
lines 224-236: both fetches run and the detail panel is closed. -/
def signedIn (uid : String) (w : World) : World :=
  let a1 := { w.app with user := some uid, todos := fetchAllTodos w.store uid, selectedTaskId := none }
  { w with app := fetchLists w.store uid w.app.selectedList a1 }

/-- A fresh installation: an empty store and the initial client state. -/
def World.fresh : World := { store := { lists := [], todos := [] }, app := AppState.initial }

/-! ## Calendar dates as `YYYY-MM-DD` strings -/

/-- A calendar date. -/
structure CalDate where
  year : Nat
  month : Nat
  day : Nat
  deriving DecidableEq, Repr

/-- Four decimal digits of a number below 10000. -/
def pad4 (n : Nat) : List Char :=
  [Nat.digitChar (n / 1000 % 10), Nat.digitChar (n / 100 % 10), Nat.digitChar (n / 10 % 10),
   Nat.digitChar (n % 10)]

/-- Two decimal digits of a number below 100. -/
def pad2 (n : Nat) : List Char := [Nat.digitChar (n / 10 % 10), Nat.digitChar (n % 10)]

/-- The `YYYY-MM-DD` string of a date, the format of a date input's value and of the
date part of `toISOString()` for the years 0 to 9999. -/
def CalDate.iso (d : CalDate) : String :=
  String.mk (pad4 d.year ++ '-' :: pad2 d.month ++ '-' :: pad2 d.day)

/-- A date that has a `YYYY-MM-DD` string. -/
def CalDate.Valid (d : CalDate) : Prop :=
  d.year ≤ 9999 ∧ 1 ≤ d.month ∧ d.month ≤ 12 ∧ 1 ≤ d.day ∧ d.day ≤ 31

/-- The date `a` is strictly before `b`. -/
def CalDate.Before (a b : CalDate) : Prop :=
  a.year < b.year ∨ (a.year = b.year ∧ (a.month < b.month ∨ (a.month = b.month ∧ a.day < b.day)))

/-- The date `a` is `b` or a later day. -/
def CalDate.OnOrAfter (a b : CalDate) : Prop := ¬ a.Before b

instance (a b : CalDate) : Decidable (a.Before b) := by unfold CalDate.Before; infer_instance

instance (a b : CalDate) : Decidable (a.OnOrAfter b) := by unfold CalDate.OnOrAfter; infer_instance

instance (d : CalDate) : Decidable d.Valid := by unfold CalDate.Valid; infer_instance

/-! ## Example sessions -/

/-- Typing into the "+ Add New List" input (line 709). -/
def typeNewList (name : String) (w : World) : World :=
  { w with app := { w.app with newList := name } }

/-- Choosing a list in the detail panel's selector (line 885). -/
def chooseDetailList (name : String) (w : World) : World :=
  { w with app := { w.app with detailList := name } }

/-- A session from a fresh installation: user `u1` signs in, creates the lists "Work" and
"Calendar", and adds the task "Write report" to "Work". -/
def calendarSession : World :=
  addTodo "Write report" "" "2024-05-01" "Work" "Today" "T1" 10
    (addList "L2" 2 (typeNewList "Calendar"
      (addList "L1" 1 (typeNewList "Work" (signedIn "u1" World.fresh)))))

/-- Typing into the list-rename input (line 685). -/
def typeEditListName (name : String) (w : World) : World :=
  { w with app := { w.app with editListName := name } }

/-- A session from a fresh installation: user `u1` signs in and creates the lists "Work"
and "Home". -/
def twoListSession : World :=
  addList "L2" 2 (typeNewList "Home"
    (addList "L1" 1 (typeNewList "Work" (signedIn "u1" World.fresh))))

/-- Clicking the rename button of the list "Work" of `twoListSession` (line 696). -/
def editingWork (w : World) : World :=
  { w with app := startEditList ⟨"L1", "u1", "Work", 1⟩ w.app }

/-- A session from a fresh installation: user `u1` signs in and creates the list "Work". -/
def workSession : World :=
  addList "L1" 1 (typeNewList "Work" (signedIn "u1" World.fresh))

/-- Clicking a task row, which opens or closes its detail panel (lines 762 and 831). -/
def clickTask (taskId : String) (w : World) : World :=
  { w with app := selectTaskForDetails taskId w.app }

/-- A session from a fresh installation: user `u1` signs in, creates the lists "Work" and
"Home", and adds the task "Write report" to "Work", stored as document `T1`. -/
def reportSession : World :=
  addTodo "Write report" "" "2024-05-01" "Work" "Today" "T1" 10 twoListSession

/-- The session `reportSession` continued: the task is opened in the detail panel, its list
is changed to "Home" and the change is saved; the store names the new document `T2`. -/
def movedSession : World :=
  saveTaskDetails "T2" (chooseDetailList "Home" (clickTask "T1" reportSession))

/-- The session `reportSession` continued: the task is moved to "Home" through the inline
list selector (line 777); the store names the new document `T2`. -/
def inlineMovedSession : World :=
  saveEdit ⟨"T1", "Write report", "Pending", 10, "Work", "", "2024-05-01", "Today", "L1"⟩
    "Home" "T2" reportSession

/-- The session `movedSession` continued: the moved task is opened in the detail panel and
deleted, the confirmation dialog being accepted. -/
def deletedAfterMoveSession : World :=
  deleteTask true (clickTask "T1" movedSession)

/-! ## Further handlers -/

/-- The handler `deleteList` (lines 379-396); `confirmed` is the answer of `window.confirm`.
The sub-collection of the deleted list stays in the store. -/
def deleteList (listId listName : String) (confirmed : Bool) (w : World) : World :=
  if !confirmed then w
  else
    let s1 := deleteListDoc w.store listId
    let a1 :=
      if w.app.selectedList == listName then
        match w.app.lists.filter (fun l => l.id != listId) with
        | [] => { w.app with selectedList := "Today" }
        | first :: _ => { w.app with selectedList := first.name }
      else w.app
    match w.app.user with
    | none => { store := s1, app := a1 }
    | some uid =>
      { store := s1
        app := { fetchLists s1 uid w.app.selectedList a1 with todos := fetchAllTodos s1 uid } }

/-! ## Task-creation modal (lines 23-73) -/

/-- The form state of `AddTaskModal` (lines 31-35). -/
structure ModalState where
  task : String
  description : String
  dueDate : String
  listName : String
  selectedCoreView : String
  deriving DecidableEq, Repr

/-- The object passed to `onSubmit` (lines 65-71). -/
structure TaskData where
  task : String
  description : String
  dueDate : String
  listName : String
  coreViewTag : String
  deriving DecidableEq, Repr

/-- The handler `handleSubmit` of the modal (lines 58-73): `none` when it returns at line 60
without calling `onSubmit`, otherwise the submitted object. The list name is
`allLists.find(l => l.name === listName)?.name || allLists[0]?.name`. -/
def handleSubmit (m : ModalState) (allLists : List ListDoc) : Option TaskData :=
  match allLists with
  | [] => none
  | first :: _ =>
    if jsTrim m.task == "" then none
    else
      let found := (allLists.find? (fun l => l.name == m.listName)).map (fun l => l.name)
      let finalListName :=
        match found with
        | some n => if n != "" then n else first.name
        | none => first.name
      some { task := m.task, description := m.description, dueDate := m.dueDate,
             listName := finalListName, coreViewTag := m.selectedCoreView }

/-- Submitting the modal in the workspace, where `onSubmit` is `addTodo` and `allLists` is
the in-memory list set (lines 638-645). -/
def submitTask (m : ModalState) (newId : String) (now : Nat) (w : World) : World :=
  match handleSubmit m w.app.lists with
  | none => w
  | some d => addTodo d.task d.description d.dueDate d.listName d.coreViewTag newId now w

/-! ## The current date (line 253) -/

/-- Milliseconds per day. -/
def msPerDay : Nat := 86400000

/-- Leap years of the Gregorian calendar. -/
def isLeapYear (y : Nat) : Bool := (y % 4 == 0 && y % 100 != 0) || y % 400 == 0

/-- Number of days of a year. -/
def daysInYear (y : Nat) : Nat := if isLeapYear y then 366 else 365

/-- The year containing day number `n` counted from 1 January of year `y`, with the day
number within that year. -/
def yearFromDays : Nat → Nat → Nat → Nat × Nat
  | 0, y, n => (y, n)
  | fuel + 1, y, n =>
    if n < daysInYear y then (y, n) else yearFromDays fuel (y + 1) (n - daysInYear y)

/-- The month lengths of a year. -/
def monthLengths (y : Nat) : List Nat :=
  [31, if isLeapYear y then 29 else 28, 31, 30, 31, 30, 31, 31, 30, 31, 30, 31]

/-- The month and day of month of the day number `n` within a year, counting months from `m`. -/
def monthDay : List Nat → Nat → Nat → Nat × Nat
  | [], m, n => (m, n + 1)
  | len :: rest, m, n => if n < len then (m, n + 1) else monthDay rest (m + 1) (n - len)

/-- The calendar date (UTC) of a time value in milliseconds since 1 January 1970 UTC. -/
def utcDate (t : Nat) : CalDate :=
  let yn := yearFromDays (t / msPerDay) 1970 (t / msPerDay)
  let md := monthDay (monthLengths yn.1) 1 yn.2
  { year := yn.1, month := md.1, day := md.2 }

/-- The date part of `toISOString()`: `YYYY-MM-DD`, and `+YYYYYY-MM-DD` beyond year 9999. -/
def isoDatePart (d : CalDate) : String :=
  if d.year ≤ 9999 then d.iso
  else String.mk ('+' :: Nat.digitChar (d.year / 100000 % 10) :: Nat.digitChar (d.year / 10000 % 10)
    :: (pad4 d.year ++ '-' :: pad2 d.month ++ '-' :: pad2 d.day))

/-- The value of `new Date().toISOString().split('T')[0]` at the instant `now` (line 253). -/
def todayString (now : Nat) : String := isoDatePart (utcDate now)

/-- The calendar date of the instant `now` in a time zone whose local time is
`offsetMinutes` ahead of UTC. -/
def localDate (now : Nat) (offsetMinutes : Int) : CalDate :=
  utcDate ((now : Int) + offsetMinutes * 60000).toNat

/-- The list-name invariant for user `uid`: the in-memory list set is the fetched one and
its names are pairwise distinct. -/
def ListNamesUnique (uid : String) (w : World) : Prop :=
  w.app.lists = fetchedLists w.store uid ∧ (w.app.lists.map (fun l => l.name)).Nodup

instance (uid : String) (w : World) : Decidable (ListNamesUnique uid w) := by
  unfold ListNamesUnique; infer_instance

/-- The three task statuses. -/
def ValidStatus (s : String) : Prop := s = "Pending" ∨ s = "In Progress" ∨ s = "Done"

instance (s : String) : Decidable (ValidStatus s) := by
  unfold ValidStatus; infer_instance

/-- The status invariant: every stored task document and every in-memory task has one of
the three statuses. -/
def StatusInvariant (w : World) : Prop :=
  (∀ d ∈ w.store.todos, ValidStatus d.data.status) ∧ (∀ t ∈ w.app.todos, ValidStatus t.status)

instance (w : World) : Decidable (StatusInvariant w) := by
  unfold StatusInvariant; infer_instance

/-- The in-memory task set of `r` is that of `w` or was fetched from the store of `r`. -/
def TodosKeptOrFetched (w r : World) : Prop :=
  r.app.todos = w.app.todos ∨ ∃ uid, r.app.todos = fetchAllTodos r.store uid

/-- The instant 2024-05-02T04:30:00Z, which is 23:30 on 2024-05-01 five hours behind UTC. -/
def lateEveningInstant : Nat := 19845 * msPerDay + 16200000

/-- The session `reportSession` continued: the list "Work" is renamed to "Office". -/
def renamedSession : World :=
  saveEditList (typeEditListName "Office" (editingWork reportSession))

/-! ## The Upcoming cut-off (lines 257-259) -/

/-- A time zone as the two conversions of the host: the offset of local time from UTC, in
milliseconds, in effect at a UTC time value, and the offset in effect at a local time value. -/
structure TimeZone where
  offsetAtUtc : Nat → Int
  offsetAtLocal : Nat → Int

/-- Local time value of a UTC time value. -/
def localTime (tz : TimeZone) (t : Nat) : Nat := ((t : Int) + tz.offsetAtUtc t).toNat

/-- The UTC time value of a local time value. -/
def utcOfLocal (tz : TimeZone) (tl : Nat) : Nat := ((tl : Int) - tz.offsetAtLocal tl).toNat

/-- Number of days from 1 January of year `start` to 1 January of year `y`, summed year by
year in at most `fuel` steps. -/
def daysBeforeYear : Nat → Nat → Nat → Nat
  | 0, _, _ => 0
  | fuel + 1, start, y =>
    if start < y then daysInYear start + daysBeforeYear fuel (start + 1) y else 0

/-- The day number of the date with the given year, month (from 1) and day of month, where
the day of month may exceed the length of the month. -/
def makeDay (y m date : Nat) : Nat :=
  daysBeforeYear (y - 1970) 1970 y + ((monthLengths y).take (m - 1)).sum + date - 1

/-- The time value of `tomorrow` after `tomorrow.setDate(tomorrow.getDate() + 1)` on
`new Date()` (lines 257-258): the local date fields are read, the day of month is increased
by one with the local time of day kept, and the result is converted back to UTC. -/
def tomorrowInstant (tz : TimeZone) (now : Nat) : Nat :=
  let lt := localTime tz now
  let d := utcDate lt
  utcOfLocal tz (makeDay d.year d.month (d.day + 1) * msPerDay + lt % msPerDay)

/-- The value of `tomorrowStr` (line 259). -/
def tomorrowString (tz : TimeZone) (now : Nat) : String :=
  isoDatePart (utcDate (tomorrowInstant tz now))

/-- The `filteredTodos` memo evaluated at the instant `now` in the time zone `tz`, with both
date strings computed as in lines 253 and 257-259. -/
def filteredTodosAt (user : Option String) (todos : List Todo) (selectedList : String)
    (tz : TimeZone) (now : Nat) : List Todo :=
  filteredTodos user todos selectedList (todayString now) (tomorrowString tz now)

/-- A time zone with a fixed offset in minutes. -/
def fixedZone (offsetMinutes : Int) : TimeZone :=
  { offsetAtUtc := fun _ => offsetMinutes * 60000
    offsetAtLocal := fun _ => offsetMinutes * 60000 }

/-- New York around the end of daylight saving time in 2024: four hours behind UTC before
2024-11-03T06:00:00Z (local 02:00), five hours behind from then on. -/
def newYorkAutumn2024 : TimeZone :=
  { offsetAtUtc := fun t => if t < 20030 * msPerDay + 21600000 then -14400000 else -18000000
    offsetAtLocal := fun tl => if tl < 20030 * msPerDay + 7200000 then -14400000 else -18000000 }

/-- The instant 2024-11-02T23:30:00Z, which is 19:30 on 2024-11-02 in New York. -/
def dstEveInstant : Nat := 20029 * msPerDay + 84600000

/-! ## The view filter -/

/-- C1: for a signed-in user, any task set and any current-date string `d`, the "Today"
view is the task set filtered by `dueDate = d`: a task is shown exactly when it is in the
set and due on `d`, and the shown tasks keep their original order. -/
theorem today_view_exact (u : String) (todos : List Todo) (d m : String) :
    filteredTodos (some u) todos "Today" d m = todos.filter (fun t => t.dueDate == d) ∧
    (∀ t, t ∈ filteredTodos (some u) todos "Today" d m ↔ t ∈ todos ∧ t.dueDate = d) ∧
    (filteredTodos (some u) todos "Today" d m).Sublist todos := by
  have h : filteredTodos (some u) todos "Today" d m = todos.filter (fun t => t.dueDate == d) := by
    simp [filteredTodos, CORE_VIEWS]
  rw [h]
  refine ⟨rfl, ?_, List.filter_sublist _⟩
  intro t
  simp [List.mem_filter]

/-! ### Comparison of `YYYY-MM-DD` strings -/

theorem utf16_digit (k : Nat) : utf16 (Nat.digitChar (k % 10)) = [48 + k % 10] := by
  have h : k % 10 < 10 := Nat.mod_lt k (by decide)
  generalize k % 10 = j at h ⊢
  interval_cases j <;> rfl

theorem utf16_dash : utf16 '-' = [45] := by decide

theorem codeUnits_iso (d : CalDate) :
    codeUnits d.iso.data =
      [48 + d.year / 1000 % 10, 48 + d.year / 100 % 10, 48 + d.year / 10 % 10, 48 + d.year % 10, 45,
       48 + d.month / 10 % 10, 48 + d.month % 10, 45, 48 + d.day / 10 % 10, 48 + d.day % 10] := by
  simp only [CalDate.iso, pad4, pad2, codeUnits, utf16_digit, utf16_dash, List.cons_append,
    List.nil_append, List.append_nil, List.singleton_append]

theorem ltUnits_cons (x y : Nat) (xs ys : List Nat) :
    ltUnits (x :: xs) (y :: ys) = true ↔ x < y ∨ (x = y ∧ ltUnits xs ys = true) := by
  simp only [ltUnits]
  split_ifs with h1 h2
  · simp [h1]
  · constructor
    · intro h; cases h
    · rintro (h | ⟨h, _⟩) <;> omega
  · have : x = y := by omega
    simp [this]

theorem ltUnits_pair (a1 a2 b1 b2 : Nat) (r s : List Nat) (ha2 : a2 < 10) (hb2 : b2 < 10) :
    ltUnits ((48 + a1) :: (48 + a2) :: r) ((48 + b1) :: (48 + b2) :: s) = true ↔
      10 * a1 + a2 < 10 * b1 + b2 ∨ (10 * a1 + a2 = 10 * b1 + b2 ∧ ltUnits r s = true) := by
  simp only [ltUnits_cons]
  by_cases hP : ltUnits r s = true <;>
    simp only [hP, Bool.false_eq_true, and_true, and_false, or_false] <;>
    constructor <;> intro h <;> omega

/-- On valid dates the string order of the `YYYY-MM-DD` forms is the calendar order. -/
theorem jsLt_iso (a b : CalDate) (ha : a.Valid) (hb : b.Valid) :
    jsLt a.iso b.iso = true ↔ a.Before b := by
  obtain ⟨ha1, ha2, ha3, ha4, ha5⟩ := ha
  obtain ⟨hb1, hb2, hb3, hb4, hb5⟩ := hb
  unfold jsLt CalDate.Before
  rw [codeUnits_iso, codeUnits_iso]
  rw [ltUnits_pair _ _ _ _ _ _ (by omega) (by omega),
    ltUnits_pair _ _ _ _ _ _ (by omega) (by omega),
    ltUnits_cons,
    ltUnits_pair _ _ _ _ _ _ (by omega) (by omega),
    ltUnits_cons,
    ltUnits_pair _ _ _ _ _ _ (by omega) (by omega)]
  simp only [ltUnits, Bool.false_eq_true, and_false, or_false, lt_self_iff_false, false_or, true_and]
  omega

theorem jsGe_iso (a b : CalDate) (ha : a.Valid) (hb : b.Valid) :
    jsGe a.iso b.iso = true ↔ a.OnOrAfter b := by
  unfold jsGe CalDate.OnOrAfter
  rw [← jsLt_iso a b ha hb]
  cases jsLt a.iso b.iso <;> simp

theorem jsGe_empty_iso (b : CalDate) : jsGe "" b.iso = false := by
  unfold jsGe jsLt
  rw [codeUnits_iso]
  rfl

/-- The "Upcoming" filter for a given cut-off: for a signed-in user, any task set and a cut-off
date `m` passed as its `YYYY-MM-DD` string, the view is the task set filtered by
`dueDate >= m` on strings; a task with a `YYYY-MM-DD` due date is shown exactly when that date
is `m` or later, and a task with an empty due date is left out. Which cut-off the code
computes is the subject of `tomorrowString`. -/
theorem upcoming_view_exact (u : String) (todos : List Todo) (d : String) (m : CalDate)
    (hm : m.Valid) :
    filteredTodos (some u) todos "Upcoming" d m.iso
        = todos.filter (fun t => jsGe t.dueDate m.iso) ∧
    (∀ t ∈ todos, ∀ due : CalDate, due.Valid → t.dueDate = due.iso →
        (t ∈ filteredTodos (some u) todos "Upcoming" d m.iso ↔ due.OnOrAfter m)) ∧
    (∀ t ∈ todos, ∀ due : CalDate, due.Valid → t.dueDate = due.iso → due.Before m →
        t ∉ filteredTodos (some u) todos "Upcoming" d m.iso) ∧
    (∀ t ∈ todos, t.dueDate = "" → t ∉ filteredTodos (some u) todos "Upcoming" d m.iso) ∧
    (filteredTodos (some u) todos "Upcoming" d m.iso).Sublist todos := by
  have h : filteredTodos (some u) todos "Upcoming" d m.iso
      = todos.filter (fun t => jsGe t.dueDate m.iso) := by
    simp [filteredTodos, CORE_VIEWS]
  rw [h]
  refine ⟨rfl, ?_, ?_, ?_, List.filter_sublist _⟩
  · intro t ht due hdue hiso
    rw [List.mem_filter, hiso, jsGe_iso due m hdue hm]
    exact ⟨fun h => h.2, fun h => ⟨ht, h⟩⟩
  · intro t _ due hdue hiso hbefore hmem
    rw [List.mem_filter, hiso, jsGe_iso due m hdue hm] at hmem
    exact hmem.2 hbefore
  · intro t _ hempty hmem
    rw [List.mem_filter, hempty, jsGe_empty_iso] at hmem
    exact Bool.false_ne_true hmem.2

/-- The "Upcoming" filter at a concrete cut-off: with cut-off 2024-05-02, of three tasks due
2024-05-01, 2024-05-02 and with no due date, only the second is shown. -/
theorem upcoming_view_exact_witness :
    CalDate.Valid ⟨2024, 5, 2⟩ ∧
    filteredTodos (some "u1")
        [⟨"T1", "a", "Pending", 1, "Work", "", "2024-05-01", "Today", "L1"⟩,
         ⟨"T2", "b", "Pending", 2, "Work", "", "2024-05-02", "Today", "L1"⟩,
         ⟨"T3", "c", "Pending", 3, "Work", "", "", "Today", "L1"⟩]
        "Upcoming" "2024-05-01" (CalDate.iso ⟨2024, 5, 2⟩)
      = [⟨"T2", "b", "Pending", 2, "Work", "", "2024-05-02", "Today", "L1"⟩] :=
  ⟨by decide, (upcoming_view_exact "u1" _ "2024-05-01" ⟨2024, 5, 2⟩ (by decide)).1.trans (by decide)⟩

/-- C3 at a failing input: in a session where the user has created the lists "Work" and
"Calendar" with `addList` and added a task to "Work", choosing the list "Calendar" through
`handleListChange` shows the task of list "Work", while no task has list field "Calendar":
the selection is treated as the built-in view of the same name. -/
theorem list_named_calendar_shows_other_lists :
    (∃ l ∈ calendarSession.app.lists, l.name = "Calendar") ∧
    (visibleTodos (handleListChange "Calendar" calendarSession.app) "2024-05-01" "2024-05-02").map
        (fun t => (t.id, t.list)) = [("T1", "Work")] ∧
    calendarSession.app.todos.filter (fun t => t.list == "Calendar") = [] ∧
    visibleTodos (handleListChange "Calendar" calendarSession.app) "2024-05-01" "2024-05-02"
      ≠ calendarSession.app.todos.filter (fun t => t.list == "Calendar") := by
  decide

/-- The list branch of the filter: for a signed-in user and a list of the list set whose name
is none of the four built-in view names, after `handleListChange` with that name the view is
the task set filtered by `list = name`, in the original order. -/
theorem custom_list_view_exact (a : AppState) (u : String) (l : ListDoc) (d m : String)
    (hu : a.user = some u) (_hl : l ∈ a.lists) (hcore : l.name ∉ CORE_VIEWS) :
    visibleTodos (handleListChange l.name a) d m = a.todos.filter (fun t => t.list == l.name) ∧
    (∀ t, t ∈ visibleTodos (handleListChange l.name a) d m ↔ t ∈ a.todos ∧ t.list = l.name) ∧
    (visibleTodos (handleListChange l.name a) d m).Sublist a.todos := by
  have hc : CORE_VIEWS.contains l.name = false := by
    simpa using hcore
  have h : visibleTodos (handleListChange l.name a) d m
      = a.todos.filter (fun t => t.list == l.name) := by
    simp only [visibleTodos, handleListChange, filteredTodos, hu, hc]
    rfl
  rw [h]
  refine ⟨rfl, ?_, List.filter_sublist _⟩
  intro t
  simp [List.mem_filter]

/-- The list branch at a concrete input: in the example session the list "Work" shows its
task. -/
theorem custom_list_view_exact_witness :
    calendarSession.app.user = some "u1" ∧
    (⟨"L1", "u1", "Work", 1⟩ : ListDoc) ∈ calendarSession.app.lists ∧
    "Work" ∉ CORE_VIEWS ∧
    visibleTodos (handleListChange "Work" calendarSession.app) "2024-05-01" "2024-05-02"
      = calendarSession.app.todos.filter (fun t => t.list == "Work") :=
  ⟨by decide, by decide, by decide,
    (custom_list_view_exact calendarSession.app "u1" ⟨"L1", "u1", "Work", 1⟩ "2024-05-01"
      "2024-05-02" (by decide) (by decide) (by decide)).1⟩

/-! ## Status cycle -/

/-- C4: the status written by `changeStatus` is In Progress for Pending, Done for In Progress
and Pending for Done; three steps from any of the three statuses return to it. -/
theorem status_cycle :
    nextStatus "Pending" = "In Progress" ∧
    nextStatus "In Progress" = "Done" ∧
    nextStatus "Done" = "Pending" ∧
    (∀ s ∈ ["Pending", "In Progress", "Done"], nextStatus (nextStatus (nextStatus s)) = s) := by
  decide

/-! ## Active and completed tasks -/

/-- C10: the active tasks are the filtered tasks whose status is not Done, the completed
ones those whose status is Done, both in the filtered order; every filtered task is in
exactly one of the two, and the two lengths add up to the length of the filtered set. -/
theorem active_completed_partition (filtered : List Todo) :
    (∀ t, t ∈ activeTodos filtered ↔ t ∈ filtered ∧ t.status ≠ "Done") ∧
    (∀ t, t ∈ completedTodos filtered ↔ t ∈ filtered ∧ t.status = "Done") ∧
    (activeTodos filtered).Sublist filtered ∧
    (completedTodos filtered).Sublist filtered ∧
    (∀ t ∈ filtered, (t ∈ activeTodos filtered ∧ t ∉ completedTodos filtered) ∨
        (t ∉ activeTodos filtered ∧ t ∈ completedTodos filtered)) ∧
    (activeTodos filtered).length + (completedTodos filtered).length = filtered.length ∧
    (activeTodos filtered ++ completedTodos filtered).Perm filtered := by
  have hperm : (activeTodos filtered ++ completedTodos filtered).Perm filtered := by
    have h := List.filter_append_perm (fun t : Todo => t.status == "Done") filtered
    have h2 : activeTodos filtered
        = filtered.filter (fun t => !(fun t : Todo => t.status == "Done") t) := by
      unfold activeTodos
      congr 1
    rw [h2]
    exact (List.perm_append_comm).trans h
  refine ⟨?_, ?_, List.filter_sublist _, List.filter_sublist _, ?_, ?_, hperm⟩
  · intro t; simp [activeTodos, List.mem_filter]
  · intro t; simp [completedTodos, List.mem_filter]
  · intro t ht
    by_cases hs : t.status = "Done"
    · right; simp [activeTodos, completedTodos, List.mem_filter, ht, hs]
    · left; simp [activeTodos, completedTodos, List.mem_filter, ht, hs]
  · have := hperm.length_eq
    simpa [List.length_append] using this

/-! ## List accessor -/

theorem fetchLists_lists (s : Store) (uid sel : String) (a : AppState) :
    (fetchLists s uid sel a).lists = fetchedLists s uid := by
  unfold fetchLists
  simp only
  split
  · split_ifs <;> simp_all
  · split_ifs <;> simp_all

theorem fetchedLists_perm (s : Store) (uid : String) :
    (fetchedLists s uid).Perm (getListDocs s uid) :=
  List.perm_insertionSort _ _

theorem addList_rejects_iff (w : World) :
    (jsTrim w.app.newList == "" || w.app.lists.any (fun l => l.name == jsTrim w.app.newList)) = true
      ↔ (jsTrim w.app.newList = "" ∨ ∃ l ∈ w.app.lists, l.name = jsTrim w.app.newList) := by
  simp [List.any_eq_true]

/-- C5: `addList` on an input whose trimmed form is empty or is the name of a list of the
in-memory list set changes nothing, neither the store nor the list set; on any other input
it adds exactly one list document, named by the trimmed input, and the re-fetched list set
is the previous one with that list added. -/
theorem addList_contract (w : World) (uid newId : String) (now : Nat)
    (hu : w.app.user = some uid) :
    ((jsTrim w.app.newList = "" ∨ ∃ l ∈ w.app.lists, l.name = jsTrim w.app.newList) →
        addList newId now w = w) ∧
    (¬ (jsTrim w.app.newList = "" ∨ ∃ l ∈ w.app.lists, l.name = jsTrim w.app.newList) →
        (addList newId now w).store.lists
            = w.store.lists ++ [⟨newId, uid, jsTrim w.app.newList, now⟩] ∧
        (addList newId now w).store.todos = w.store.todos ∧
        (addList newId now w).app.lists = fetchedLists (addList newId now w).store uid ∧
        (addList newId now w).app.lists.Perm
            (fetchedLists w.store uid ++ [⟨newId, uid, jsTrim w.app.newList, now⟩]) ∧
        (addList newId now w).app.lists.length = (fetchedLists w.store uid).length + 1) := by
  constructor
  · intro h
    have hc := (addList_rejects_iff w).2 h
    simp only [addList, hu, hc, if_true]
  · intro h
    have hc : (jsTrim w.app.newList == "" ||
        w.app.lists.any (fun l => l.name == jsTrim w.app.newList)) = false := by
      rw [← Bool.not_eq_true, addList_rejects_iff]; exact h
    have hw : addList newId now w =
        { store := addListDoc w.store newId uid (jsTrim w.app.newList) now,
          app := fetchLists (addListDoc w.store newId uid (jsTrim w.app.newList) now) uid
            w.app.selectedList { w.app with newList := "" } } := by
      simp only [addList, hu, hc]
      rfl
    have hperm : (fetchedLists (addListDoc w.store newId uid (jsTrim w.app.newList) now) uid).Perm
        (fetchedLists w.store uid ++ [⟨newId, uid, jsTrim w.app.newList, now⟩]) := by
      refine (fetchedLists_perm _ _).trans ?_
      have : getListDocs (addListDoc w.store newId uid (jsTrim w.app.newList) now) uid
          = getListDocs w.store uid ++ [⟨newId, uid, jsTrim w.app.newList, now⟩] := by
        simp [getListDocs, addListDoc, List.filter_append]
      rw [this]
      exact (fetchedLists_perm _ _).symm.append_right _
    rw [hw]
    refine ⟨rfl, rfl, fetchLists_lists _ _ _ _, ?_, ?_⟩
    · simp only [fetchLists_lists]; exact hperm
    · simp only [fetchLists_lists]
      simpa using hperm.length_eq

/-- C5, at concrete inputs: in a fresh session "  Work " creates the list "Work", after which
the input "Work " is rejected. -/
theorem addList_contract_witness :
    (addList "L1" 1 (typeNewList "  Work " (signedIn "u1" World.fresh))).store.lists
        = [⟨"L1", "u1", "Work", 1⟩] ∧
    addList "L2" 2 (typeNewList "Work "
        (addList "L1" 1 (typeNewList "  Work " (signedIn "u1" World.fresh))))
      = typeNewList "Work " (addList "L1" 1 (typeNewList "  Work " (signedIn "u1" World.fresh))) :=
  ⟨((addList_contract (typeNewList "  Work " (signedIn "u1" World.fresh)) "u1" "L1" 1
      (by decide)).2 (by decide)).1.trans (by decide),
   (addList_contract (typeNewList "Work "
      (addList "L1" 1 (typeNewList "  Work " (signedIn "u1" World.fresh)))) "u1" "L2" 2
      (by decide)).1 (by decide)⟩

theorem updateListDoc_of_mem (s : Store) (A : ListDoc) (name : String) (hA : A ∈ s.lists) :
    updateListDoc s A.id name = some
      ⟨s.lists.map (fun l => if l.id == A.id then { l with name := name } else l), s.todos⟩ := by
  have : s.lists.any (fun l => l.id == A.id) = true :=
    List.any_eq_true.2 ⟨A, hA, by simp⟩
  simp only [updateListDoc, this, if_true]

theorem eq_of_id_eq_of_nodup (ls : List ListDoc) (hn : (ls.map (fun l => l.id)).Nodup)
    (a b : ListDoc) (ha : a ∈ ls) (hb : b ∈ ls) (hab : a.id = b.id) : a = b := by
  induction ls with
  | nil => cases ha
  | cons x xs ih =>
    rw [List.map_cons, List.nodup_cons] at hn
    rcases List.mem_cons.1 ha with rfl | ha'
    · rcases List.mem_cons.1 hb with rfl | hb'
      · rfl
      · exact absurd (hab ▸ List.mem_map_of_mem (fun l => l.id) hb') hn.1
    · rcases List.mem_cons.1 hb with rfl | hb'
      · exact absurd (hab ▸ List.mem_map_of_mem (fun l => l.id) ha') hn.1
      · exact ih hn.2 ha' hb'

/-- C6: with list `A` being edited, `saveEditList` on an input whose trimmed form is the name
of another list `B` of the list set changes nothing; on a non-empty trimmed name carried by
no list other than `A`, it writes that name to `A`'s document and leaves every other list
document, the number of lists and all task documents as they were. -/
theorem saveEditList_contract (w : World) (uid : String) (A : ListDoc)
    (hu : w.app.user = some uid) (hA : A ∈ w.app.lists) (hedit : w.app.editListId = some A.id) :
    (∀ B ∈ w.app.lists, B.id ≠ A.id → jsTrim w.app.editListName = B.name →
        saveEditList w = w) ∧
    (jsTrim w.app.editListName ≠ "" →
      (∀ l ∈ w.app.lists, l.name = jsTrim w.app.editListName → l.id = A.id) →
      A ∈ w.store.lists → (w.store.lists.map (fun l => l.id)).Nodup →
        ({ A with name := jsTrim w.app.editListName } : ListDoc) ∈ (saveEditList w).store.lists ∧
        (∀ l ∈ w.store.lists, l.id ≠ A.id → l ∈ (saveEditList w).store.lists) ∧
        (∀ l ∈ (saveEditList w).store.lists,
            l = { A with name := jsTrim w.app.editListName } ∨ (l ∈ w.store.lists ∧ l.id ≠ A.id)) ∧
        (saveEditList w).store.lists.length = w.store.lists.length ∧
        (saveEditList w).store.todos = w.store.todos ∧
        (saveEditList w).app.lists = fetchedLists (saveEditList w).store uid) := by
  constructor
  · intro B hB hne hname
    have hc : w.app.lists.any (fun l => l.name == jsTrim w.app.editListName &&
        some l.id != w.app.editListId) = true := by
      refine List.any_eq_true.2 ⟨B, hB, ?_⟩
      simp [hname, hedit, hne]
    simp only [saveEditList, hu, hc, Bool.or_true, if_true]
  · intro hne huniq hAs hnodup
    have hc : (jsTrim w.app.editListName == "" ||
        w.app.lists.any (fun l => l.name == jsTrim w.app.editListName &&
          some l.id != w.app.editListId)) = false := by
      rw [Bool.or_eq_false_iff]
      refine ⟨by simpa using hne, ?_⟩
      rw [← Bool.not_eq_true, List.any_eq_true]
      rintro ⟨l, hl, h⟩
      simp only [hedit, Bool.and_eq_true, beq_iff_eq, bne_iff_ne, ne_eq, Option.some.injEq] at h
      exact h.2 (huniq l hl h.1)
    have hw : (saveEditList w).store = ⟨w.store.lists.map (fun l =>
          if l.id == A.id then { l with name := jsTrim w.app.editListName } else l),
          w.store.todos⟩ ∧
        (saveEditList w).app.lists = fetchedLists (saveEditList w).store uid := by
      simp only [saveEditList, hu, hc]
      simp only [hedit, updateListDoc_of_mem w.store A _ hAs]
      exact ⟨rfl, fetchLists_lists _ _ _ _⟩
    refine ⟨?_, ?_, ?_, ?_, ?_, hw.2⟩
    · rw [hw.1]
      exact List.mem_map.2 ⟨A, hAs, by simp⟩
    · intro l hl hlid
      rw [hw.1]
      exact List.mem_map.2 ⟨l, hl, by simp [hlid]⟩
    · intro l hl
      rw [hw.1] at hl
      obtain ⟨l0, hl0, rfl⟩ := List.mem_map.1 hl
      by_cases h : l0.id = A.id
      · left
        have := eq_of_id_eq_of_nodup _ hnodup l0 A hl0 hAs h
        subst this
        simp
      · right
        simp [h, hl0]
    · rw [hw.1]; simp
    · rw [hw.1]

/-- C6, at concrete inputs: with lists "Work" and "Home", renaming "Work" to " Home" is
rejected and renaming it to "Office" renames the document `L1`. -/
theorem saveEditList_contract_witness :
    saveEditList (typeEditListName " Home" (editingWork twoListSession))
      = typeEditListName " Home" (editingWork twoListSession) ∧
    (⟨"L1", "u1", "Office", 1⟩ : ListDoc) ∈
      (saveEditList (typeEditListName "Office" (editingWork twoListSession))).store.lists :=
  ⟨(saveEditList_contract (typeEditListName " Home" (editingWork twoListSession)) "u1"
      ⟨"L1", "u1", "Work", 1⟩ (by decide) (by decide) (by decide)).1
      ⟨"L2", "u1", "Home", 2⟩ (by decide) (by decide) (by decide),
   ((saveEditList_contract (typeEditListName "Office" (editingWork twoListSession)) "u1"
      ⟨"L1", "u1", "Work", 1⟩ (by decide) (by decide) (by decide)).2
      (by decide) (by decide) (by decide) (by decide)).1⟩

/-! ## Task accessor -/

theorem fetchAllTodos_perm (s : Store) (uid : String) :
    (fetchAllTodos s uid).Perm (collectTodos s (getListDocs s uid)) :=
  List.perm_insertionSort _ _

theorem getTodoDocs_addTodoDoc (s : Store) (p newId : String) (data : TodoData) (x : String) :
    getTodoDocs (addTodoDoc s p newId data) x
      = getTodoDocs s x ++ (if p == x then [⟨p, newId, data⟩] else []) := by
  simp only [getTodoDocs, addTodoDoc, List.filter_append]
  by_cases h : p = x
  · simp [List.filter, h]
  · have hb : (p == x) = false := by simpa using h
    simp [List.filter, hb]

theorem collectTodos_addTodoDoc (s : Store) (p newId : String) (data : TodoData)
    (ls : List ListDoc) :
    (collectTodos (addTodoDoc s p newId data) ls).Perm
      ((ls.filter (fun x => x.id == p)).map (fun x => toTodo x.id x.name ⟨p, newId, data⟩)
        ++ collectTodos s ls) := by
  induction ls with
  | nil => simp [collectTodos]
  | cons x xs ih =>
    simp only [collectTodos, getTodoDocs_addTodoDoc, List.filter_cons]
    by_cases h : x.id = p
    · have hp : (p == x.id) = true := by simp [h]
      have hx : (x.id == p) = true := by simp [h]
      simp only [hp, hx, if_true, List.map_append, List.map_cons, List.map_nil,
        List.append_assoc, List.cons_append, List.nil_append]
      refine (List.Perm.append_left _ (List.Perm.cons _ ih)).trans ?_
      refine List.perm_middle.trans (List.Perm.cons _ ?_)
      exact (List.perm_append_comm_assoc _ _ _)
    · have hp : (p == x.id) = false := by simp [Ne.symm h]
      have hx : (x.id == p) = false := by simp [h]
      simp only [hp, hx, if_false, List.append_nil, Bool.false_eq_true]
      refine (List.Perm.append_left _ ih).trans ?_
      exact (List.perm_append_comm_assoc _ _ _)

theorem filter_id_eq_singleton (ls : List ListDoc) (hn : (ls.map (fun l => l.id)).Nodup)
    (l : ListDoc) (hl : l ∈ ls) : ls.filter (fun x => x.id == l.id) = [l] := by
  induction ls with
  | nil => cases hl
  | cons x xs ih =>
    rw [List.map_cons, List.nodup_cons] at hn
    rcases List.mem_cons.1 hl with rfl | hl'
    · have : xs.filter (fun x => x.id == l.id) = [] := by
        rw [List.filter_eq_nil_iff]
        intro y hy hy'
        exact hn.1 ((beq_iff_eq.1 hy') ▸ List.mem_map_of_mem (fun l => l.id) hy)
      simp [List.filter_cons, this]
    · have hne : x.id ≠ l.id := fun h =>
        hn.1 (h ▸ List.mem_map_of_mem (fun l => l.id) hl')
      simp [List.filter_cons, hne, ih hn.2 hl']

theorem getListIdByName_of_mem (lists : List ListDoc) (L : String)
    (hL : ∃ l ∈ lists, l.name = L) :
    ∃ l ∈ lists, l.name = L ∧ getListIdByName lists L = some l.id := by
  obtain ⟨l0, hl0, hname⟩ := hL
  cases hfind : lists.find? (fun x => x.name == L) with
  | none =>
    have := List.find?_eq_none.1 hfind l0 hl0
    simp [hname] at this
  | some l =>
    refine ⟨l, List.mem_of_find?_eq_some hfind, ?_, ?_⟩
    · simpa using List.find?_some hfind
    · simp [getListIdByName, hfind]

/-- C9: when the in-memory list set is the fetched one and holds a list named `L`, `addTodo`
with list name `L`, title `t` and due date `d` appends exactly one document to the store,
under the sub-collection of a list of the user named `L`; the re-fetched task set is the
previous one plus one task with that document's identifier, list field `L`, title `t`,
due date `d` and status Pending, and this task is in the "Today" view when `d` is the
current date. -/
theorem addTodo_contract (w : World) (uid L t desc d tag newId : String) (now : Nat) (m : String)
    (hu : w.app.user = some uid) (hmirror : w.app.lists = fetchedLists w.store uid)
    (hL : ∃ l ∈ w.app.lists, l.name = L) (hids : ∀ l ∈ w.store.lists, l.id ≠ "")
    (hnodup : (w.store.lists.map (fun l => l.id)).Nodup) :
    ∃ l ∈ w.store.lists, l.uid = uid ∧ l.name = L ∧
      (addTodo t desc d L tag newId now w).store.lists = w.store.lists ∧
      (addTodo t desc d L tag newId now w).store.todos
        = w.store.todos ++ [⟨l.id, newId, newTodoData t desc d L tag now⟩] ∧
      (addTodo t desc d L tag newId now w).app.todos
        = fetchAllTodos (addTodo t desc d L tag newId now w).store uid ∧
      (addTodo t desc d L tag newId now w).app.todos.Perm
        (⟨newId, t, "Pending", now, L, desc, d, tag, l.id⟩ :: fetchAllTodos w.store uid) ∧
      (⟨newId, t, "Pending", now, L, desc, d, tag, l.id⟩ : Todo) ∈
        filteredTodos (some uid) (addTodo t desc d L tag newId now w).app.todos "Today" d m := by
  obtain ⟨l, hl, hname, hget⟩ := getListIdByName_of_mem w.app.lists L hL
  have hldocs : l ∈ getListDocs w.store uid := by
    rw [hmirror] at hl
    exact (fetchedLists_perm _ _).subset hl
  have hls : l ∈ w.store.lists ∧ l.uid = uid := by
    simpa [getListDocs, List.mem_filter] using hldocs
  have htruthy : truthy (some l.id) = true := by
    simpa [truthy] using hids l hls.1
  have hw : addTodo t desc d L tag newId now w =
      ⟨addTodoDoc w.store l.id newId (newTodoData t desc d L tag now),
        { w.app with todos :=
            fetchAllTodos (addTodoDoc w.store l.id newId (newTodoData t desc d L tag now)) uid }⟩ := by
    simp only [addTodo, hget, htruthy, hu]
    rfl
  have hnd : ((getListDocs w.store uid).map (fun l => l.id)).Nodup :=
    hnodup.sublist ((List.filter_sublist _).map _)
  have hperm : (fetchAllTodos (addTodoDoc w.store l.id newId (newTodoData t desc d L tag now)) uid).Perm
      (⟨newId, t, "Pending", now, L, desc, d, tag, l.id⟩ :: fetchAllTodos w.store uid) := by
    refine (fetchAllTodos_perm _ _).trans ?_
    have hsame : getListDocs (addTodoDoc w.store l.id newId (newTodoData t desc d L tag now)) uid
        = getListDocs w.store uid := rfl
    rw [hsame]
    refine (collectTodos_addTodoDoc _ _ _ _ _).trans ?_
    rw [filter_id_eq_singleton _ hnd l hldocs]
    simp only [List.map_cons, List.map_nil, List.singleton_append]
    have htodo : toTodo l.id l.name ⟨l.id, newId, newTodoData t desc d L tag now⟩
        = ⟨newId, t, "Pending", now, L, desc, d, tag, l.id⟩ := by
      simp [toTodo, newTodoData, hname]
    rw [htodo]
    exact List.Perm.cons _ (fetchAllTodos_perm _ _).symm
  refine ⟨l, hls.1, hls.2, hname, ?_, ?_, ?_, ?_, ?_⟩
  · rw [hw]; rfl
  · rw [hw]; rfl
  · rw [hw]
  · rw [hw]; exact hperm
  · rw [hw, (today_view_exact uid _ d m).1, List.mem_filter]
    exact ⟨hperm.symm.subset (List.mem_cons_self _ _), by simp⟩

/-- C9, at a concrete input: with the single, empty list "Work", adding "Write report" due
2024-05-01 gives a fetched task set of exactly that one task, Pending and under "Work", and
it is the "Today" view on 2024-05-01. -/
theorem addTodo_contract_witness :
    (∃ l ∈ workSession.store.lists, l.uid = "u1" ∧ l.name = "Work") ∧
    (addTodo "Write report" "" "2024-05-01" "Work" "Today" "T1" 10 workSession).app.todos
      = [⟨"T1", "Write report", "Pending", 10, "Work", "", "2024-05-01", "Today", "L1"⟩] ∧
    filteredTodos (some "u1")
        (addTodo "Write report" "" "2024-05-01" "Work" "Today" "T1" 10 workSession).app.todos
        "Today" "2024-05-01" "2024-05-02"
      = [⟨"T1", "Write report", "Pending", 10, "Work", "", "2024-05-01", "Today", "L1"⟩] :=
  ⟨(addTodo_contract workSession "u1" "Work" "Write report" "" "2024-05-01" "Today" "T1" 10
      "2024-05-02" (by decide) (by decide) (by decide) (by decide) (by decide)).imp
      (fun _ h => ⟨h.1, h.2.1, h.2.2.1⟩),
   by decide, by decide⟩

/-! ## Tasks moved between lists -/

/-- C7 at a failing input: a task added to "Work", moved to "Home", then selected and
deleted with confirmation. The task shown after the move carries the identifier `T1`, it
is the selected one, and after `deleteTask` the store still holds its document `T2` and the
re-fetched task set still has a task with identifier `T1`. -/
theorem deleteTask_after_move_keeps_task :
    movedSession.app.todos.map (fun t => t.id) = ["T1"] ∧
    (clickTask "T1" movedSession).app.selectedTaskId = some "T1" ∧
    deletedAfterMoveSession.store.todos.map (fun d => (d.parent, d.docId)) = [("L2", "T2")] ∧
    deletedAfterMoveSession.app.todos = fetchAllTodos deletedAfterMoveSession.store "u1" ∧
    (fetchAllTodos deletedAfterMoveSession.store "u1").map (fun t => t.id) = ["T1"] := by
  decide

/-- C8 at a failing input: the task stored as document `T1` under "Work" is moved to "Home",
by `saveTaskDetails` and by `saveEdit`. Afterwards the store holds the single document `T2`
under "Home", and the fetched task set is one task with list field "Home" whose identifier
is still `T1`. -/
theorem move_keeps_prior_identifier :
    reportSession.store.todos.map (fun d => (d.parent, d.docId)) = [("L1", "T1")] ∧
    movedSession.store.todos.map (fun d => (d.parent, d.docId)) = [("L2", "T2")] ∧
    movedSession.app.todos
      = [⟨"T1", "Write report", "Pending", 10, "Home", "", "2024-05-01", "Today", "L2"⟩] ∧
    inlineMovedSession.store.todos.map (fun d => (d.parent, d.docId)) = [("L2", "T2")] ∧
    inlineMovedSession.app.todos
      = [⟨"T1", "Write report", "Pending", 10, "Home", "", "2024-05-01", "Today", "L2"⟩] := by
  decide

/-! ## Fetched list set -/

theorem ltUnits_irrefl (a : List Nat) : ltUnits a a = false := by
  induction a with
  | nil => rfl
  | cons x xs ih => simp [ltUnits, ih]

theorem ltUnits_nil_right (c : List Nat) : ltUnits c [] = false := by
  cases c <;> rfl

theorem ltUnits_le_trans (a b c : List Nat)
    (hab : ltUnits b a = false) (hbc : ltUnits c b = false) : ltUnits c a = false := by
  induction a generalizing b c with
  | nil => exact ltUnits_nil_right c
  | cons x xs ih =>
    cases b with
    | nil => simp [ltUnits] at hab
    | cons y ys =>
      cases c with
      | nil => simp [ltUnits] at hbc
      | cons z zs =>
        rw [← Bool.not_eq_true, ltUnits_cons] at hab hbc ⊢
        rintro (h | ⟨h, h'⟩)
        · by_cases hxy : y < x
          · exact hab (Or.inl hxy)
          · by_cases hyz : z < y
            · exact hbc (Or.inl hyz)
            · omega
        · subst h
          by_cases hxy : y < z
          · exact hab (Or.inl hxy)
          · by_cases hyz : z < y
            · exact hbc (Or.inl hyz)
            · have hyz' : z = y := by omega
              subst hyz'
              have h1 : ltUnits ys xs = false := by
                rw [← Bool.not_eq_true]; exact fun h1 => hab (Or.inr ⟨rfl, h1⟩)
              have h2 : ltUnits zs ys = false := by
                rw [← Bool.not_eq_true]; exact fun h2 => hbc (Or.inr ⟨rfl, h2⟩)
              rw [ih ys zs h1 h2] at h'
              exact Bool.false_ne_true h'

theorem ltUnits_total (a b : List Nat) : ltUnits b a = false ∨ ltUnits a b = false := by
  induction a generalizing b with
  | nil => left; exact ltUnits_nil_right b
  | cons x xs ih =>
    cases b with
    | nil => right; rfl
    | cons y ys =>
      rcases Nat.lt_trichotomy x y with h | h | h
      · left
        rw [← Bool.not_eq_true, ltUnits_cons]
        rintro (h' | ⟨h', _⟩) <;> omega
      · subst h
        rcases ih ys with h1 | h1
        · left
          rw [← Bool.not_eq_true, ltUnits_cons]
          rintro (h' | ⟨_, h'⟩)
          · omega
          · rw [h1] at h'; exact Bool.false_ne_true h'
        · right
          rw [← Bool.not_eq_true, ltUnits_cons]
          rintro (h' | ⟨_, h'⟩)
          · omega
          · rw [h1] at h'; exact Bool.false_ne_true h'
      · right
        rw [← Bool.not_eq_true, ltUnits_cons]
        rintro (h' | ⟨h', _⟩) <;> omega

instance : IsTotal ListDoc listBefore :=
  ⟨fun a b => ltUnits_total (codeUnits a.name.data) (codeUnits b.name.data)⟩

instance : IsTrans ListDoc listBefore :=
  ⟨fun a b c hab hbc =>
    ltUnits_le_trans (codeUnits a.name.data) (codeUnits b.name.data) (codeUnits c.name.data) hab hbc⟩

/-- C11: `fetchLists` sets the in-memory list set to a permutation of the stored list
documents whose `uid` is the given user id, ordered by name: no name is greater than the
name of a later list, in particular of the next one. -/
theorem fetchLists_sorted_perm (s : Store) (uid sel : String) (a : AppState) :
    (fetchLists s uid sel a).lists.Perm (s.lists.filter (fun l => l.uid == uid)) ∧
    (∀ l, l ∈ (fetchLists s uid sel a).lists ↔ l ∈ s.lists ∧ l.uid = uid) ∧
    (fetchLists s uid sel a).lists.length = (s.lists.filter (fun l => l.uid == uid)).length ∧
    (fetchLists s uid sel a).lists.Pairwise (fun x y => jsGt x.name y.name = false) ∧
    (fetchLists s uid sel a).lists.Chain' (fun x y => jsGt x.name y.name = false) := by
  rw [fetchLists_lists]
  have hperm : (fetchedLists s uid).Perm (s.lists.filter (fun l => l.uid == uid)) :=
    fetchedLists_perm s uid
  have hsorted : (fetchedLists s uid).Pairwise (fun x y => jsGt x.name y.name = false) :=
    List.sorted_insertionSort listBefore (getListDocs s uid)
  refine ⟨hperm, ?_, hperm.length_eq, hsorted, List.Pairwise.chain' hsorted⟩
  intro l
  rw [hperm.mem_iff, List.mem_filter]
  simp

/-! ## Selection after a fetch -/

theorem fetchLists_selectedList (s : Store) (uid sel : String) (a : AppState) :
    (fetchLists s uid sel a).selectedList =
      if sel ∉ CORE_VIEWS ∧ ∀ l ∈ fetchedLists s uid, l.name ≠ sel then
        ((fetchedLists s uid).head?.map (fun l => l.name)).getD "Today"
      else a.selectedList := by
  unfold fetchLists
  simp only
  cases hfl : fetchedLists s uid with
  | nil =>
    by_cases hc : sel ∈ CORE_VIEWS
    · have hcb : CORE_VIEWS.contains sel = true := by simpa using hc
      simp [hcb, hc]
    · have hcb : CORE_VIEWS.contains sel = false := by simpa using hc
      simp [hcb, hc]
  | cons first rest =>
    by_cases hc : sel ∈ CORE_VIEWS
    · have hcb : CORE_VIEWS.contains sel = true := by simpa using hc
      simp [hcb, hc]
    · have hcb : CORE_VIEWS.contains sel = false := by simpa using hc
      by_cases hany : ∀ l ∈ first :: rest, l.name ≠ sel
      · have hanyb : (first :: rest).any (fun l => l.name == sel) = false := by
          rw [← Bool.not_eq_true, List.any_eq_true]
          rintro ⟨l, hl, h⟩
          exact hany l hl (by simpa using h)
        simp only [hcb, hanyb, Bool.false_eq_true, if_false, Bool.not_false, if_true]
        rw [if_pos ⟨hc, hany⟩]
        rfl
      · have hanyb : (first :: rest).any (fun l => l.name == sel) = true := by
          rw [List.any_eq_true]
          push_neg at hany
          obtain ⟨l, hl, h⟩ := hany
          exact ⟨l, hl, by simpa using h⟩
        simp only [hcb, hanyb, Bool.false_eq_true, if_false, Bool.not_true]
        rw [if_neg (fun h => hany h.2)]

/-- C12: after `fetchLists` called with the selection `sel`, if `sel` is no built-in view name
and no fetched list is named `sel`, the selection becomes the name of the first fetched list,
or "Today" when no list was fetched; in every other case the selection is left as it was.
When the selection was `sel`, it is afterwards a built-in view name or the name of a list of
the fetched list set. -/
theorem fetchLists_selection (s : Store) (uid sel : String) (a : AppState) :
    (fetchLists s uid sel a).lists = fetchedLists s uid ∧
    ((sel ∉ CORE_VIEWS ∧ ∀ l ∈ fetchedLists s uid, l.name ≠ sel) →
      (fetchLists s uid sel a).selectedList
        = ((fetchedLists s uid).head?.map (fun l => l.name)).getD "Today") ∧
    (¬ (sel ∉ CORE_VIEWS ∧ ∀ l ∈ fetchedLists s uid, l.name ≠ sel) →
      (fetchLists s uid sel a).selectedList = a.selectedList) ∧
    (a.selectedList = sel →
      (fetchLists s uid sel a).selectedList ∈ CORE_VIEWS ∨
      ∃ l ∈ (fetchLists s uid sel a).lists, l.name = (fetchLists s uid sel a).selectedList) := by
  refine ⟨fetchLists_lists s uid sel a, ?_, ?_, ?_⟩
  · intro h
    rw [fetchLists_selectedList, if_pos h]
  · intro h
    rw [fetchLists_selectedList, if_neg h]
  · intro hsel
    rw [fetchLists_selectedList, fetchLists_lists]
    by_cases h : sel ∉ CORE_VIEWS ∧ ∀ l ∈ fetchedLists s uid, l.name ≠ sel
    · rw [if_pos h]
      cases hfl : fetchedLists s uid with
      | nil => left; decide
      | cons first rest => right; exact ⟨first, List.mem_cons_self _ _, rfl⟩
    · rw [if_neg h, hsel]
      by_cases hc : sel ∈ CORE_VIEWS
      · exact Or.inl hc
      · right
        by_contra hno
        exact h ⟨hc, fun l hl hname => hno ⟨l, hl, hname⟩⟩

/-- C12, at concrete inputs: with the lists "Home" and "Work" fetched, the stale selection
"Office" becomes "Home", the selection "Work" stays, and with no list left "Office"
becomes "Today". -/
theorem fetchLists_selection_witness :
    (fetchLists twoListSession.store "u1" "Office"
        (handleListChange "Office" twoListSession.app)).selectedList = "Home" ∧
    (fetchLists twoListSession.store "u1" "Work"
        (handleListChange "Work" twoListSession.app)).selectedList = "Work" ∧
    (fetchLists World.fresh.store "u1" "Office"
        (handleListChange "Office" twoListSession.app)).selectedList = "Today" :=
  ⟨((fetchLists_selection twoListSession.store "u1" "Office"
      (handleListChange "Office" twoListSession.app)).2.1 (by decide)).trans (by decide),
   ((fetchLists_selection twoListSession.store "u1" "Work"
      (handleListChange "Work" twoListSession.app)).2.2.1 (by decide)).trans (by decide),
   ((fetchLists_selection World.fresh.store "u1" "Office"
      (handleListChange "Office" twoListSession.app)).2.1 (by decide)).trans (by decide)⟩

/-! ## Task-creation modal -/

/-- C13: `handleSubmit` submits exactly when the trimmed title is non-empty and the list set
is non-empty, and otherwise the store is left untouched. A submitted object carries the form's
title and a list name that is the name of a list of the list set; with non-empty list
identifiers `getListIdByName` resolves that name, so `addTodo` passes its guard and appends
one document to the store. -/
theorem handleSubmit_contract (m : ModalState) (w : World) (newId : String) (now : Nat) :
    ((handleSubmit m w.app.lists).isSome ↔ (jsTrim m.task ≠ "" ∧ w.app.lists ≠ [])) ∧
    (handleSubmit m w.app.lists = none → submitTask m newId now w = w) ∧
    (∀ d, handleSubmit m w.app.lists = some d →
      d.task = m.task ∧ d.description = m.description ∧ d.dueDate = m.dueDate ∧
      d.coreViewTag = m.selectedCoreView ∧
      (∃ l ∈ w.app.lists, l.name = d.listName) ∧
      ((∀ l ∈ w.app.lists, l.id ≠ "") →
        truthy (getListIdByName w.app.lists d.listName) = true ∧
        ∃ l ∈ w.app.lists, l.name = d.listName ∧
          (submitTask m newId now w).store.todos = w.store.todos ++
            [⟨l.id, newId, newTodoData m.task m.description m.dueDate d.listName
              m.selectedCoreView now⟩])) := by
  refine ⟨?_, ?_, ?_⟩
  · unfold handleSubmit
    cases w.app.lists with
    | nil => simp
    | cons first rest =>
      by_cases ht : jsTrim m.task = ""
      · simp [ht]
      · simp [ht]
  · intro h
    simp only [submitTask, h]
  · intro d hd
    have hshape : d.task = m.task ∧ d.description = m.description ∧ d.dueDate = m.dueDate ∧
        d.coreViewTag = m.selectedCoreView ∧ ∃ l ∈ w.app.lists, l.name = d.listName := by
      unfold handleSubmit at hd
      cases hl : w.app.lists with
      | nil => rw [hl] at hd; cases hd
      | cons first rest =>
        rw [hl] at hd
        by_cases ht : jsTrim m.task = ""
        · simp [ht] at hd
        · have hb : (jsTrim m.task == "") = false := by simpa using ht
          simp only [hb, Bool.false_eq_true, if_false, Option.some.injEq] at hd
          subst hd
          refine ⟨rfl, rfl, rfl, rfl, ?_⟩
          cases hf : (first :: rest).find? (fun l => l.name == m.listName) with
          | none => exact ⟨first, List.mem_cons_self _ _, by simp⟩
          | some l0 =>
            by_cases hn : l0.name = ""
            · exact ⟨first, List.mem_cons_self _ _, by simp [hn]⟩
            · exact ⟨l0, List.mem_of_find?_eq_some hf, by simp [hn]⟩
    obtain ⟨h1, h2, h3, h4, h5⟩ := hshape
    refine ⟨h1, h2, h3, h4, h5, ?_⟩
    intro hids
    obtain ⟨l, hl, hname, hget⟩ := getListIdByName_of_mem w.app.lists d.listName h5
    have htruthy : truthy (some l.id) = true := by simpa [truthy] using hids l hl
    refine ⟨by rw [hget]; exact htruthy, l, hl, hname, ?_⟩
    simp only [submitTask, hd, addTodo, hget, htruthy, h1, h2, h3, h4]
    cases w.app.user <;> rfl

/-- C13, at concrete inputs: in the session with the list "Work", a form with title
"Write report" and the unknown list name "Today" is submitted under "Work", and a form with a
blank title is not submitted. -/
theorem handleSubmit_contract_witness :
    handleSubmit ⟨"Write report", "", "2024-05-01", "Today", "Today"⟩ workSession.app.lists
      = some ⟨"Write report", "", "2024-05-01", "Work", "Today"⟩ ∧
    truthy (getListIdByName workSession.app.lists "Work") = true ∧
    submitTask ⟨"  ", "", "", "Work", "Today"⟩ "T1" 10 workSession = workSession :=
  ⟨by decide,
   (((handleSubmit_contract ⟨"Write report", "", "2024-05-01", "Today", "Today"⟩ workSession
      "T1" 10).2.2 ⟨"Write report", "", "2024-05-01", "Work", "Today"⟩ (by decide)).2.2.2.2.2
      (by decide)).1,
   (handleSubmit_contract ⟨"  ", "", "", "Work", "Today"⟩ workSession "T1" 10).2.1 (by decide)⟩

/-! ## Uniqueness of list names -/

theorem fetchedLists_names_perm (s : Store) (uid : String) :
    ((fetchedLists s uid).map (fun l => l.name)).Perm
      ((getListDocs s uid).map (fun l => l.name)) :=
  (fetchedLists_perm s uid).map _

theorem listNamesUnique_of_stored (s : Store) (uid : String) (a : AppState)
    (ha : a.lists = fetchedLists s uid)
    (hn : ((getListDocs s uid).map (fun l => l.name)).Nodup) :
    ListNamesUnique uid ⟨s, a⟩ :=
  ⟨ha, by
    show (a.lists.map (fun l => l.name)).Nodup
    rw [ha]
    exact (fetchedLists_names_perm s uid).nodup_iff.2 hn⟩

theorem stored_names_nodup (w : World) (uid : String) (h : ListNamesUnique uid w) :
    ((getListDocs w.store uid).map (fun l => l.name)).Nodup := by
  have h2 := h.2
  rw [h.1] at h2
  exact (fetchedLists_names_perm w.store uid).nodup_iff.1 h2

theorem mem_app_lists_iff (w : World) (uid : String) (h : ListNamesUnique uid w) (l : ListDoc) :
    l ∈ w.app.lists ↔ l ∈ getListDocs w.store uid := by
  rw [h.1]
  exact (fetchedLists_perm w.store uid).mem_iff

theorem addList_preserves_names (w : World) (uid newId : String) (now : Nat)
    (hu : w.app.user = some uid) (h : ListNamesUnique uid w) :
    ListNamesUnique uid (addList newId now w) := by
  by_cases hc : (jsTrim w.app.newList == "" ||
      w.app.lists.any (fun l => l.name == jsTrim w.app.newList)) = true
  · have : addList newId now w = w := by simp only [addList, hu, hc, if_true]
    rw [this]; exact h
  · have hcf : (jsTrim w.app.newList == "" ||
        w.app.lists.any (fun l => l.name == jsTrim w.app.newList)) = false := by
      simpa using hc
    have hw : addList newId now w =
        ⟨addListDoc w.store newId uid (jsTrim w.app.newList) now,
          fetchLists (addListDoc w.store newId uid (jsTrim w.app.newList) now) uid
            w.app.selectedList { w.app with newList := "" }⟩ := by
      simp only [addList, hu, hcf]
      rfl
    rw [hw]
    refine listNamesUnique_of_stored _ _ _ (fetchLists_lists _ _ _ _) ?_
    have hdocs : getListDocs (addListDoc w.store newId uid (jsTrim w.app.newList) now) uid
        = getListDocs w.store uid ++ [⟨newId, uid, jsTrim w.app.newList, now⟩] := by
      simp [getListDocs, addListDoc, List.filter_append]
    rw [hdocs, List.map_append]
    simp only [List.map_cons, List.map_nil]
    refine List.Nodup.append (stored_names_nodup w uid h) (List.nodup_singleton _) ?_
    rw [List.disjoint_singleton]
    intro hmem
    obtain ⟨l, hl, hname⟩ := List.mem_map.1 hmem
    have hl' : l ∈ w.app.lists := (mem_app_lists_iff w uid h l).2 hl
    rw [Bool.or_eq_false_iff] at hcf
    have hany : w.app.lists.any (fun l => l.name == jsTrim w.app.newList) = true :=
      List.any_eq_true.2 ⟨l, hl', by simpa using hname⟩
    rw [hcf.2] at hany
    exact Bool.false_ne_true hany

theorem getListDocs_rename (s : Store) (uid e name : String) :
    (s.lists.map (fun l => if l.id == e then { l with name := name } else l)).filter
        (fun l => l.uid == uid)
      = (getListDocs s uid).map (fun l => if l.id == e then { l with name := name } else l) := by
  unfold getListDocs
  rw [List.filter_map]
  congr 1
  apply List.filter_congr
  intro x _
  by_cases he : x.id = e <;> simp [he]

theorem saveEditList_preserves_names (w : World) (uid : String)
    (hu : w.app.user = some uid) (h : ListNamesUnique uid w)
    (hids : (w.store.lists.map (fun l => l.id)).Nodup) :
    ListNamesUnique uid (saveEditList w) := by
  by_cases hc : (jsTrim w.app.editListName == "" ||
      w.app.lists.any (fun l => l.name == jsTrim w.app.editListName &&
        some l.id != w.app.editListId)) = true
  · have : saveEditList w = w := by simp only [saveEditList, hu, hc, if_true]
    rw [this]; exact h
  · have hcf : (jsTrim w.app.editListName == "" ||
        w.app.lists.any (fun l => l.name == jsTrim w.app.editListName &&
          some l.id != w.app.editListId)) = false := by
      simpa using hc
    cases he : w.app.editListId with
    | none =>
      have : saveEditList w = w := by
        simp only [saveEditList, hu, hcf]
        simp only [he]
        rfl
      rw [this]; exact h
    | some e =>
      by_cases hex : w.store.lists.any (fun l => l.id == e) = true
      · have hw : (saveEditList w).store = ⟨w.store.lists.map (fun l =>
              if l.id == e then { l with name := jsTrim w.app.editListName } else l),
              w.store.todos⟩ ∧
            (saveEditList w).app.lists = fetchedLists (saveEditList w).store uid := by
          simp only [saveEditList, hu, hcf]
          simp only [he, updateListDoc, hex, if_true]
          exact ⟨rfl, fetchLists_lists _ _ _ _⟩
        have hstored : ((getListDocs (saveEditList w).store uid).map (fun l => l.name)).Nodup := by
          rw [hw.1]
          show (((w.store.lists.map (fun l =>
              if l.id == e then { l with name := jsTrim w.app.editListName } else l)).filter
              (fun l => l.uid == uid)).map (fun l => l.name)).Nodup
          rw [getListDocs_rename, List.map_map]
          have hLn := stored_names_nodup w uid h
          refine List.Nodup.map_on ?_ (List.Nodup.of_map _ hLn)
          intro x hx y hy hxy
          have hno : ∀ l ∈ getListDocs w.store uid,
              l.name = jsTrim w.app.editListName → l.id = e := by
            intro l hl hname
            by_contra hne
            rw [Bool.or_eq_false_iff] at hcf
            have hany : w.app.lists.any (fun l => l.name == jsTrim w.app.editListName &&
                some l.id != w.app.editListId) = true :=
              List.any_eq_true.2 ⟨l, (mem_app_lists_iff w uid h l).2 hl, by simp [hname, he, hne]⟩
            rw [hcf.2] at hany
            exact Bool.false_ne_true hany
          have hxs : x ∈ w.store.lists := List.mem_of_mem_filter hx
          have hys : y ∈ w.store.lists := List.mem_of_mem_filter hy
          by_cases hxe : x.id = e <;> by_cases hye : y.id = e
          · exact eq_of_id_eq_of_nodup _ hids x y hxs hys (hxe.trans hye.symm)
          · simp only [Function.comp, hxe, hye, beq_self_eq_true, if_true, beq_iff_eq,
              if_false] at hxy
            exact absurd (hno y hy hxy.symm) hye
          · simp only [Function.comp, hxe, hye, beq_self_eq_true, if_true, beq_iff_eq,
              if_false] at hxy
            exact absurd (hno x hx hxy) hxe
          · simp only [Function.comp, hxe, hye, beq_iff_eq, if_false] at hxy
            exact List.inj_on_of_nodup_map hLn hx hy hxy
        refine ⟨hw.2, ?_⟩
        rw [hw.2]
        exact (fetchedLists_names_perm _ uid).nodup_iff.2 hstored
      · have hexf : w.store.lists.any (fun l => l.id == e) = false := by simpa using hex
        have : saveEditList w = w := by
          simp only [saveEditList, hu, hcf]
          simp only [he, updateListDoc, hexf]
          rfl
        rw [this]; exact h

theorem deleteList_preserves_names (w : World) (uid listId listName : String) (confirmed : Bool)
    (hu : w.app.user = some uid) (h : ListNamesUnique uid w) :
    ListNamesUnique uid (deleteList listId listName confirmed w) := by
  cases confirmed with
  | false => exact h
  | true =>
    have hw : (deleteList listId listName true w).store = deleteListDoc w.store listId ∧
        (deleteList listId listName true w).app.lists
          = fetchedLists (deleteListDoc w.store listId) uid := by
      simp only [deleteList, hu]
      exact ⟨rfl, fetchLists_lists _ _ _ _⟩
    have hsub : (getListDocs (deleteListDoc w.store listId) uid).Sublist
        (getListDocs w.store uid) := by
      unfold getListDocs deleteListDoc
      exact (List.filter_sublist _).filter _
    refine ⟨by rw [hw.1]; exact hw.2, ?_⟩
    rw [hw.2]
    exact (fetchedLists_names_perm _ uid).nodup_iff.2
      ((stored_names_nodup w uid h).sublist (hsub.map _))

/-- C14: for a signed-in user whose in-memory list set is the fetched one with pairwise
distinct names (document identifiers being unique in the collection), the same holds after
`addList`, after `saveEditList` and after `deleteList`, on every input, whether the handler
returns early or performs its store call; the stored lists of the user then also have
pairwise distinct names. -/
theorem list_names_stay_unique (w : World) (uid : String)
    (hu : w.app.user = some uid) (h : ListNamesUnique uid w)
    (hids : (w.store.lists.map (fun l => l.id)).Nodup) :
    (∀ newId now, ListNamesUnique uid (addList newId now w) ∧
      ((getListDocs (addList newId now w).store uid).map (fun l => l.name)).Nodup) ∧
    (ListNamesUnique uid (saveEditList w) ∧
      ((getListDocs (saveEditList w).store uid).map (fun l => l.name)).Nodup) ∧
    (∀ listId listName confirmed,
      ListNamesUnique uid (deleteList listId listName confirmed w) ∧
      ((getListDocs (deleteList listId listName confirmed w).store uid).map
        (fun l => l.name)).Nodup) := by
  refine ⟨fun newId now => ?_, ?_, fun listId listName confirmed => ?_⟩
  · have := addList_preserves_names w uid newId now hu h
    exact ⟨this, stored_names_nodup _ uid this⟩
  · have := saveEditList_preserves_names w uid hu h hids
    exact ⟨this, stored_names_nodup _ uid this⟩
  · have := deleteList_preserves_names w uid listId listName confirmed hu h
    exact ⟨this, stored_names_nodup _ uid this⟩

/-- C14, at concrete inputs: in the session with lists "Work" and "Home", with "Home" typed
as a new list and " Home" as the new name of "Work", the names stay distinct after `addList`,
after `saveEditList` and after deleting "Work". -/
theorem list_names_stay_unique_witness :
    ListNamesUnique "u1" (typeEditListName " Home" (editingWork (typeNewList "Home" twoListSession))) ∧
    ListNamesUnique "u1"
      (addList "L3" 3 (typeEditListName " Home" (editingWork (typeNewList "Home" twoListSession)))) ∧
    ListNamesUnique "u1"
      (saveEditList (typeEditListName " Home" (editingWork (typeNewList "Home" twoListSession)))) ∧
    ListNamesUnique "u1" (deleteList "L1" "Work" true
      (typeEditListName " Home" (editingWork (typeNewList "Home" twoListSession)))) :=
  ⟨by decide,
   ((list_names_stay_unique
      (typeEditListName " Home" (editingWork (typeNewList "Home" twoListSession))) "u1"
      (by decide) (by decide) (by decide)).1 "L3" 3).1,
   (list_names_stay_unique
      (typeEditListName " Home" (editingWork (typeNewList "Home" twoListSession))) "u1"
      (by decide) (by decide) (by decide)).2.1.1,
   ((list_names_stay_unique
      (typeEditListName " Home" (editingWork (typeNewList "Home" twoListSession))) "u1"
      (by decide) (by decide) (by decide)).2.2 "L1" "Work" true).1⟩

/-! ## Task statuses -/

theorem mem_collectTodos (s : Store) (ls : List ListDoc) (t : Todo)
    (ht : t ∈ collectTodos s ls) :
    ∃ d ∈ s.todos, ∃ l ∈ ls, d.parent = l.id ∧ t = toTodo l.id l.name d := by
  induction ls with
  | nil => simp [collectTodos] at ht
  | cons x xs ih =>
    simp only [collectTodos, List.mem_append, List.mem_map] at ht
    rcases ht with ⟨d, hd, rfl⟩ | ht
    · simp only [getTodoDocs, List.mem_filter, beq_iff_eq] at hd
      exact ⟨d, hd.1, x, List.mem_cons_self _ _, hd.2, rfl⟩
    · obtain ⟨d, hd, l, hl, h1, h2⟩ := ih ht
      exact ⟨d, hd, l, List.mem_cons_of_mem _ hl, h1, h2⟩

theorem mem_fetchAllTodos (s : Store) (uid : String) (t : Todo) (ht : t ∈ fetchAllTodos s uid) :
    ∃ d ∈ s.todos, ∃ l ∈ getListDocs s uid, d.parent = l.id ∧ t = toTodo l.id l.name d :=
  mem_collectTodos s _ t ((fetchAllTodos_perm s uid).subset ht)

theorem fetchAllTodos_status (s : Store) (uid : String)
    (hs : ∀ d ∈ s.todos, ValidStatus d.data.status) :
    ∀ t ∈ fetchAllTodos s uid, ValidStatus t.status := by
  intro t ht
  obtain ⟨d, hd, l, _, _, rfl⟩ := mem_fetchAllTodos s uid t ht
  exact hs d hd

theorem statusInvariant_of (w r : World) (h : StatusInvariant w)
    (hs : ∀ d ∈ r.store.todos, ValidStatus d.data.status) (ht : TodosKeptOrFetched w r) :
    StatusInvariant r := by
  refine ⟨hs, ?_⟩
  rcases ht with ht | ⟨uid, ht⟩
  · rw [ht]; exact h.2
  · rw [ht]; exact fetchAllTodos_status _ uid hs

theorem nextStatus_valid (s : String) : ValidStatus (nextStatus s) := by
  unfold nextStatus ValidStatus
  split_ifs <;> simp

theorem mem_addTodoDoc (s : Store) (p n : String) (data : TodoData) (d : TodoDoc)
    (hd : d ∈ (addTodoDoc s p n data).todos) : d ∈ s.todos ∨ d = ⟨p, n, data⟩ := by
  simpa [addTodoDoc] using hd

theorem mem_deleteTodoDoc (s : Store) (p n : String) (d : TodoDoc)
    (hd : d ∈ (deleteTodoDoc s p n).todos) : d ∈ s.todos :=
  List.mem_of_mem_filter hd

theorem mem_updateTodoDoc (s s1 : Store) (p n : String) (f : TodoData → TodoData)
    (hu : updateTodoDoc s p n f = some s1) (d : TodoDoc) (hd : d ∈ s1.todos) :
    d ∈ s.todos ∨ ∃ d0 ∈ s.todos, d = { d0 with data := f d0.data } := by
  unfold updateTodoDoc at hu
  split_ifs at hu
  cases hu
  obtain ⟨d0, hd0, rfl⟩ := List.mem_map.1 hd
  split_ifs
  · exact Or.inr ⟨d0, hd0, rfl⟩
  · exact Or.inl hd0

theorem changeStatus_kept (todo : Todo) (w : World) :
    TodosKeptOrFetched w (changeStatus todo w) := by
  unfold changeStatus TodosKeptOrFetched
  dsimp only
  repeat' split
  all_goals first | exact Or.inl rfl | exact Or.inr ⟨_, rfl⟩

theorem changeStatus_store (todo : Todo) (w : World) (h : StatusInvariant w) :
    ∀ d ∈ (changeStatus todo w).store.todos, ValidStatus d.data.status := by
  unfold changeStatus
  dsimp only
  repeat' split
  all_goals first
    | exact h.1
    | (intro d hd
       rcases mem_updateTodoDoc _ _ _ _ _ (by assumption) d hd with h1 | ⟨d0, _, hd0⟩
       · exact h.1 d h1
       · rw [hd0]; exact nextStatus_valid _)

theorem saveTaskDetails_kept (newId : String) (w : World) :
    TodosKeptOrFetched w (saveTaskDetails newId w) := by
  unfold saveTaskDetails TodosKeptOrFetched
  dsimp only
  repeat' split
  all_goals first | exact Or.inl rfl | exact Or.inr ⟨_, rfl⟩

theorem saveTaskDetails_store_cases (newId : String) (w : World) :
    (saveTaskDetails newId w).store = w.store ∨
    (∃ oldId sel, ∃ f : TodoData → TodoData, (∀ x, (f x).status = x.status) ∧
      updateTodoDoc w.store oldId sel f = some (saveTaskDetails newId w).store) ∨
    (∃ cur ∈ w.app.todos, ∃ newLid oldId sel task desc due list,
      (saveTaskDetails newId w).store = deleteTodoDoc
        (addTodoDoc w.store newLid newId (movedTodoData cur task desc due list)) oldId sel) := by
  unfold saveTaskDetails
  dsimp only
  split
  · left; rfl
  · split
    · left; rfl
    · left; rfl
    · split
      · left; rfl
      · split
        · split
          · left; rfl
          · rename_i hg x2 x1 sid cur hsel hfind hlist oldL newL oldId newLid ho hn x s1 hst
            cases w.app.user <;> dsimp only <;> split_ifs at hst with hif
            · right; left
              refine ⟨oldId, sid, _, ?_, hst⟩
              intro x; rfl
            · cases hst
              right; right
              exact ⟨cur, List.mem_of_find?_eq_some hfind, newLid, oldId, sid, _, _, _, _, rfl⟩
            · right; left
              refine ⟨oldId, sid, _, ?_, hst⟩
              intro x; rfl
            · cases hst
              right; right
              exact ⟨cur, List.mem_of_find?_eq_some hfind, newLid, oldId, sid, _, _, _, _, rfl⟩
        · left; rfl

theorem saveTaskDetails_store (newId : String) (w : World) (h : StatusInvariant w) :
    ∀ d ∈ (saveTaskDetails newId w).store.todos, ValidStatus d.data.status := by
  intro d hd
  rcases saveTaskDetails_store_cases newId w with hs | ⟨oldId, sel, f, hf, hu⟩ |
      ⟨cur, hcur, newLid, oldId, sel, task, desc, due, list, hs⟩
  · rw [hs] at hd; exact h.1 d hd
  · rcases mem_updateTodoDoc _ _ _ _ _ hu d hd with h1 | ⟨d0, hd0, rfl⟩
    · exact h.1 d h1
    · show ValidStatus (f d0.data).status
      rw [hf]; exact h.1 d0 hd0
  · rw [hs] at hd
    rcases mem_addTodoDoc _ _ _ _ _ (mem_deleteTodoDoc _ _ _ _ hd) with h1 | rfl
    · exact h.1 d h1
    · exact h.2 cur hcur

theorem saveEdit_kept (todo : Todo) (newListValue newId : String) (w : World) :
    TodosKeptOrFetched w (saveEdit todo newListValue newId w) := by
  unfold saveEdit TodosKeptOrFetched
  dsimp only
  repeat' split
  all_goals first | exact Or.inl rfl | exact Or.inr ⟨_, rfl⟩

theorem saveEdit_store_cases (todo : Todo) (newListValue newId : String) (w : World) :
    (saveEdit todo newListValue newId w).store = w.store ∨
    (∃ curId, ∃ f : TodoData → TodoData, (∀ x, (f x).status = x.status) ∧
      updateTodoDoc w.store curId todo.id f = some (saveEdit todo newListValue newId w).store) ∨
    (∃ tgtId curId task list,
      (saveEdit todo newListValue newId w).store = deleteTodoDoc
        (addTodoDoc w.store tgtId newId (inlineMovedTodoData todo task list)) curId todo.id) := by
  unfold saveEdit
  dsimp only
  generalize (if (newListValue != "") = true then newListValue else todo.list) = tgtName
  generalize (if truthy w.app.editId = true then
    (if (jsTrim w.app.editTask != "") = true then jsTrim w.app.editTask else todo.task)
    else todo.task) = taskName
  by_cases hg : (!truthy (getListIdByName w.app.lists todo.list) ||
      !truthy (getListIdByName w.app.lists tgtName)) = true
  · rw [if_pos hg]; left; rfl
  · rw [if_neg hg]
    cases hcur : getListIdByName w.app.lists todo.list with
    | none => left; rfl
    | some curId =>
      cases htgt : getListIdByName w.app.lists tgtName with
      | none => left; rfl
      | some tgtId =>
        dsimp only
        by_cases hsame : (curId == tgtId) = true
        · by_cases hedit : truthy w.app.editId = true
          · simp only [hsame, hedit, if_true]
            cases hupd : updateTodoDoc w.store curId todo.id
                (fun d => { d with task := taskName }) with
            | none => left; rfl
            | some s1 =>
              right; left
              refine ⟨curId, fun d => { d with task := taskName }, ?_, ?_⟩
              · intro x; rfl
              · rw [hupd]; cases w.app.user <;> rfl
          · simp only [hsame, hedit, if_true, Bool.false_eq_true, if_false]
            left; cases w.app.user <;> rfl
        · simp only [hsame, Bool.false_eq_true, if_false]
          right; right
          exact ⟨tgtId, curId, taskName, tgtName, by cases w.app.user <;> rfl⟩

theorem saveEdit_store (todo : Todo) (newListValue newId : String) (w : World)
    (h : StatusInvariant w) (htodo : todo ∈ w.app.todos) :
    ∀ d ∈ (saveEdit todo newListValue newId w).store.todos, ValidStatus d.data.status := by
  intro d hd
  rcases saveEdit_store_cases todo newListValue newId w with hs | ⟨curId, f, hf, hu⟩ |
      ⟨tgtId, curId, task, list, hs⟩
  · rw [hs] at hd; exact h.1 d hd
  · rcases mem_updateTodoDoc _ _ _ _ _ hu d hd with h1 | ⟨d0, hd0, rfl⟩
    · exact h.1 d h1
    · show ValidStatus (f d0.data).status
      rw [hf]; exact h.1 d0 hd0
  · rw [hs] at hd
    rcases mem_addTodoDoc _ _ _ _ _ (mem_deleteTodoDoc _ _ _ _ hd) with h1 | rfl
    · exact h.1 d h1
    · exact h.2 todo htodo

theorem addTodo_kept (task description dueDate listName coreViewTag newId : String) (now : Nat)
    (w : World) :
    TodosKeptOrFetched w (addTodo task description dueDate listName coreViewTag newId now w) := by
  unfold addTodo TodosKeptOrFetched
  dsimp only
  repeat' split
  all_goals first | exact Or.inl rfl | exact Or.inr ⟨_, rfl⟩

theorem addTodo_store (task description dueDate listName coreViewTag newId : String) (now : Nat)
    (w : World) (h : StatusInvariant w) :
    ∀ d ∈ (addTodo task description dueDate listName coreViewTag newId now w).store.todos,
      ValidStatus d.data.status := by
  unfold addTodo
  dsimp only
  repeat' split
  all_goals first
    | exact h.1
    | (intro d hd
       rcases mem_addTodoDoc _ _ _ _ _ hd with h1 | rfl
       · exact h.1 d h1
       · exact Or.inl rfl)

theorem deleteTask_kept (confirmed : Bool) (w : World) :
    TodosKeptOrFetched w (deleteTask confirmed w) := by
  unfold deleteTask TodosKeptOrFetched
  dsimp only
  repeat' split
  all_goals first | exact Or.inl rfl | exact Or.inr ⟨_, rfl⟩

theorem deleteTask_store (confirmed : Bool) (w : World) (h : StatusInvariant w) :
    ∀ d ∈ (deleteTask confirmed w).store.todos, ValidStatus d.data.status := by
  unfold deleteTask
  dsimp only
  repeat' split
  all_goals first
    | exact h.1
    | (intro d hd
       exact h.1 d (mem_deleteTodoDoc _ _ _ _ hd))

/-- C17: `addTodo` writes status Pending, `nextStatus` always yields one of the three statuses,
and the in-place update and the move of `saveTaskDetails` and `saveEdit` write a status that
a stored document or an in-memory task already had. Hence, when every stored document and
every in-memory task has one of the three statuses, the same holds after `addTodo`,
`changeStatus`, `saveTaskDetails`, `saveEdit` (on an in-memory task) and `deleteTask`; and the
task set fetched at sign-in has valid statuses whenever the stored documents have. -/
theorem status_stays_valid (w : World) (h : StatusInvariant w) :
    (∀ task description dueDate listName tag now,
      (newTodoData task description dueDate listName tag now).status = "Pending") ∧
    (∀ s, ValidStatus (nextStatus s)) ∧
    (∀ newId, ∀ d ∈ (saveTaskDetails newId w).store.todos,
      (∃ d0 ∈ w.store.todos, d.data.status = d0.data.status) ∨
      (∃ t ∈ w.app.todos, d.data.status = t.status)) ∧
    (∀ todo ∈ w.app.todos, ∀ newListValue newId,
      ∀ d ∈ (saveEdit todo newListValue newId w).store.todos,
      (∃ d0 ∈ w.store.todos, d.data.status = d0.data.status) ∨
      (∃ t ∈ w.app.todos, d.data.status = t.status)) ∧
    (∀ task description dueDate listName tag newId now,
      StatusInvariant (addTodo task description dueDate listName tag newId now w)) ∧
    (∀ todo, StatusInvariant (changeStatus todo w)) ∧
    (∀ newId, StatusInvariant (saveTaskDetails newId w)) ∧
    (∀ todo ∈ w.app.todos, ∀ newListValue newId,
      StatusInvariant (saveEdit todo newListValue newId w)) ∧
    (∀ confirmed, StatusInvariant (deleteTask confirmed w)) ∧
    (∀ uid, ∀ t ∈ (signedIn uid w).app.todos, ValidStatus t.status) := by
  refine ⟨fun _ _ _ _ _ _ => rfl, nextStatus_valid, ?_, ?_, ?_, ?_, ?_, ?_, ?_, ?_⟩
  · intro newId d hd
    rcases saveTaskDetails_store_cases newId w with hs | ⟨oldId, sel, f, hf, hu⟩ |
        ⟨cur, hcur, newLid, oldId, sel, task, desc, due, list, hs⟩
    · rw [hs] at hd; exact Or.inl ⟨d, hd, rfl⟩
    · rcases mem_updateTodoDoc _ _ _ _ _ hu d hd with h1 | ⟨d0, hd0, rfl⟩
      · exact Or.inl ⟨d, h1, rfl⟩
      · exact Or.inl ⟨d0, hd0, hf d0.data⟩
    · rw [hs] at hd
      rcases mem_addTodoDoc _ _ _ _ _ (mem_deleteTodoDoc _ _ _ _ hd) with h1 | rfl
      · exact Or.inl ⟨d, h1, rfl⟩
      · exact Or.inr ⟨cur, hcur, rfl⟩
  · intro todo htodo newListValue newId d hd
    rcases saveEdit_store_cases todo newListValue newId w with hs | ⟨curId, f, hf, hu⟩ |
        ⟨tgtId, curId, task, list, hs⟩
    · rw [hs] at hd; exact Or.inl ⟨d, hd, rfl⟩
    · rcases mem_updateTodoDoc _ _ _ _ _ hu d hd with h1 | ⟨d0, hd0, rfl⟩
      · exact Or.inl ⟨d, h1, rfl⟩
      · exact Or.inl ⟨d0, hd0, hf d0.data⟩
    · rw [hs] at hd
      rcases mem_addTodoDoc _ _ _ _ _ (mem_deleteTodoDoc _ _ _ _ hd) with h1 | rfl
      · exact Or.inl ⟨d, h1, rfl⟩
      · exact Or.inr ⟨todo, htodo, rfl⟩
  · intro task description dueDate listName tag newId now
    exact statusInvariant_of w _ h (addTodo_store _ _ _ _ _ _ _ w h) (addTodo_kept _ _ _ _ _ _ _ w)
  · intro todo
    exact statusInvariant_of w _ h (changeStatus_store todo w h) (changeStatus_kept todo w)
  · intro newId
    exact statusInvariant_of w _ h (saveTaskDetails_store newId w h) (saveTaskDetails_kept newId w)
  · intro todo htodo newListValue newId
    exact statusInvariant_of w _ h (saveEdit_store todo newListValue newId w h htodo)
      (saveEdit_kept todo newListValue newId w)
  · intro confirmed
    exact statusInvariant_of w _ h (deleteTask_store confirmed w h) (deleteTask_kept confirmed w)
  · intro uid t ht
    have hfetch : (signedIn uid w).app.todos = fetchAllTodos w.store uid := by
      unfold signedIn fetchLists
      dsimp only
      repeat' split
      all_goals rfl
    rw [hfetch] at ht
    exact fetchAllTodos_status w.store uid h.1 t ht

/-- C17, at a concrete input: in the session holding the Pending task "Write report", the
invariant holds and still holds after the task's status is changed; the stored status is then
"In Progress". -/
theorem status_stays_valid_witness :
    StatusInvariant reportSession ∧
    StatusInvariant (changeStatus
      ⟨"T1", "Write report", "Pending", 10, "Work", "", "2024-05-01", "Today", "L1"⟩
      reportSession) ∧
    (changeStatus ⟨"T1", "Write report", "Pending", 10, "Work", "", "2024-05-01", "Today", "L1"⟩
      reportSession).store.todos.map (fun d => d.data.status) = ["In Progress"] :=
  ⟨by decide,
   (status_stays_valid reportSession (by decide)).2.2.2.2.2.1
     ⟨"T1", "Write report", "Pending", 10, "Work", "", "2024-05-01", "Today", "L1"⟩,
   by decide⟩

/-! ## The current date and the time zone -/

/-- C15 at a failing input: at 2024-05-02T04:30:00Z, for a user five hours behind UTC, the
string compared by the "Today" view is "2024-05-02" while the user's calendar date is
2024-05-01; a task due on 2024-05-01 is not shown and a task due on 2024-05-02 is. -/
theorem today_string_is_utc_date :
    todayString lateEveningInstant = "2024-05-02" ∧
    (localDate lateEveningInstant (-300)).iso = "2024-05-01" ∧
    localDate lateEveningInstant 0 = utcDate lateEveningInstant ∧
    filteredTodos (some "u1")
        [⟨"T1", "a", "Pending", 1, "Work", "", "2024-05-01", "Today", "L1"⟩,
         ⟨"T2", "b", "Pending", 2, "Work", "", "2024-05-02", "Today", "L1"⟩]
        "Today" (todayString lateEveningInstant) "2024-05-03"
      = [⟨"T2", "b", "Pending", 2, "Work", "", "2024-05-02", "Today", "L1"⟩] := by
  decide

/-! ## Tasks after a list rename -/

/-- C16 at a failing input: after the list "Work", which holds a task, is renamed to "Office",
the in-memory lists are "Home" and "Office" while the in-memory task still has list field
"Work"; `getListIdByName` does not resolve it and `changeStatus` on the task does nothing,
although a fetch would give the task the list field "Office". -/
theorem rename_leaves_task_list_unresolved :
    renamedSession.app.lists.map (fun l => l.name) = ["Home", "Office"] ∧
    renamedSession.app.todos.map (fun t => (t.id, t.list)) = [("T1", "Work")] ∧
    getListIdByName renamedSession.app.lists "Work" = none ∧
    changeStatus ⟨"T1", "Write report", "Pending", 10, "Work", "", "2024-05-01", "Today", "L1"⟩
      renamedSession = renamedSession ∧
    (fetchAllTodos renamedSession.store "u1").map (fun t => (t.id, t.list)) = [("T1", "Office")] := by
  decide

/-! ## Identifiers of fetched tasks -/

/-- C18 at a failing input: after the move of `movedSession` the only stored task document is
`T2` under list `L2`, while the fetched task has `listId` `L2` and `id` `T1`; the document
`lists/L2/todos/T1` addressed by a later `changeStatus` does not exist, and `changeStatus`
leaves the store and the task set as they were. -/
theorem fetched_id_differs_from_document_id :
    movedSession.store.todos.map (fun d => (d.parent, d.docId)) = [("L2", "T2")] ∧
    (fetchAllTodos movedSession.store "u1").map (fun t => (t.id, t.listId)) = [("T1", "L2")] ∧
    movedSession.store.todos.any (fun d => d.parent == "L2" && d.docId == "T1") = false ∧
    changeStatus ⟨"T1", "Write report", "Pending", 10, "Home", "", "2024-05-01", "Today", "L2"⟩
      movedSession = movedSession := by
  decide

/-! ## The Upcoming cut-off and daylight saving time -/

/-- C2 at a failing input: in New York at 2024-11-02T23:30:00Z (local 19:30 on 2024-11-02) the
current-date string is "2024-11-02" but `tomorrowStr` is "2024-11-04", because the local day
after has 25 hours. Of three tasks due 2024-11-02, 2024-11-03 and 2024-11-04 the "Upcoming"
view returns only the last: the task due tomorrow is in neither "Today" nor "Upcoming". With a
fixed offset of five hours behind UTC the cut-off at the same instant is "2024-11-03". -/
theorem upcoming_skips_tomorrow_at_dst_end :
    todayString dstEveInstant = "2024-11-02" ∧
    (utcDate (localTime newYorkAutumn2024 dstEveInstant)).iso = "2024-11-02" ∧
    tomorrowString newYorkAutumn2024 dstEveInstant = "2024-11-04" ∧
    filteredTodosAt (some "u1")
        [⟨"T1", "a", "Pending", 1, "Work", "", "2024-11-02", "Today", "L1"⟩,
         ⟨"T2", "b", "Pending", 2, "Work", "", "2024-11-03", "Today", "L1"⟩,
         ⟨"T3", "c", "Pending", 3, "Work", "", "2024-11-04", "Today", "L1"⟩]
        "Upcoming" newYorkAutumn2024 dstEveInstant
      = [⟨"T3", "c", "Pending", 3, "Work", "", "2024-11-04", "Today", "L1"⟩] ∧
    filteredTodosAt (some "u1")
        [⟨"T1", "a", "Pending", 1, "Work", "", "2024-11-02", "Today", "L1"⟩,
         ⟨"T2", "b", "Pending", 2, "Work", "", "2024-11-03", "Today", "L1"⟩,
         ⟨"T3", "c", "Pending", 3, "Work", "", "2024-11-04", "Today", "L1"⟩]
        "Today" newYorkAutumn2024 dstEveInstant
      = [⟨"T1", "a", "Pending", 1, "Work", "", "2024-11-02", "Today", "L1"⟩] ∧
    tomorrowString (fixedZone (-300)) dstEveInstant = "2024-11-03" := by
  decide

end TodoApp
